import Mathlib

/-!
Shallow embedding of `src/invisible_detection-new.py` (the DOM/style analysis
engine for detecting invisible text in HTML e-mails).

Python floats are modelled by exact rationals (`ℚ`); `int(...)` truncation,
Python banker's `round(...)` and `f"{x:.2f}"` formatting are modelled
explicitly.  The WCAG contrast computation (`_calculate_contrast`) uses the
non-rational exponent `** 2.4`, so the classifier is parameterised by the
contrast function; every other operation is embedded executably.
-/

namespace InvisDet

/-- Python `int(x)` on a float/rational: truncation toward zero. -/
def pyInt (q : ℚ) : ℤ := if q < 0 then -(Int.floor (-q)) else Int.floor q

/-- Python `round(x)` on a float/rational: round half to even. -/
def pyRound (q : ℚ) : ℤ :=
  let f := Int.floor q
  let frac := q - f
  if frac < 1/2 then f
  else if 1/2 < frac then f + 1
  else if f % 2 = 0 then f else f + 1

/-- Models `f"{x:.2f}"` followed by `float(...)` re-parsing: the value rounded
to two decimal places (`_parse_opacity` formats its result this way and every
consumer parses it back). -/
def round2 (q : ℚ) : ℚ := (pyRound (q * 100) : ℚ) / 100

/-- `max(0.0, min(x, hi))` as used by the tuple colour parser. -/
def clampQ (lo hi x : ℚ) : ℚ := max lo (min x hi)

/-- Digits of a natural number (auxiliary, fuelled). -/
def natDigitsAux : ℕ → ℕ → List Char
  | 0, _ => []
  | fuel + 1, n =>
    if n < 10 then [Char.ofNat (48 + n)]
    else natDigitsAux fuel (n / 10) ++ [Char.ofNat (48 + n % 10)]

/-- Decimal string of a natural number (models Python integer `str`/f-string
formatting of a non-negative `int`). -/
def natStr (n : ℕ) : String := ⟨natDigitsAux (n + 1) n⟩

/-- Decimal string of an integer. -/
def intStr (i : ℤ) : String :=
  if i < 0 then "-" ++ natStr i.natAbs else natStr i.natAbs

/-- Count how many times `p` divides `n` (fuelled). -/
def countFactor (p : ℕ) : ℕ → ℕ → ℕ
  | 0, _ => 0
  | fuel + 1, n => if 1 < n ∧ n % p = 0 then countFactor p fuel (n / p) + 1 else 0

/-- Models Python `f"{x}"` on a non-negative float that originated from a
decimal literal: an exact decimal expansion with at least one fractional
digit (`f"{16.0}" = "16.0"`, `f"{2.5}" = "2.5"`).  Scientific notation for
extreme magnitudes is not modelled (floats are approximated by rationals). -/
def formatQ (q : ℚ) : String :=
  let den := q.den
  let k := max (countFactor 2 den den) (countFactor 5 den den)
  let scaled : ℤ := q.num * ((10 : ℤ) ^ k) / (den : ℤ)
  let intPart : ℤ := scaled / (10 : ℤ) ^ k
  let fracDigits : List Char :=
    (List.range k).reverse.map
      (fun i => Char.ofNat (48 + ((scaled.natAbs / 10 ^ i) % 10)))
  let trimmed := (fracDigits.reverse.dropWhile (fun c => c = '0')).reverse
  let fracStr : List Char := if trimmed.isEmpty then ['0'] else trimmed
  intStr intPart ++ "." ++ String.mk fracStr

/-- Python `str.strip()` on the character list (whitespace from both ends). -/
def charStrip (cs : List Char) : List Char :=
  ((cs.dropWhile Char.isWhitespace).reverse.dropWhile Char.isWhitespace).reverse

/-- Python `str.strip()`. -/
def pyStrip (s : String) : String := ⟨charStrip s.data⟩

/-- Python `str.lower()`. -/
def pyLower (s : String) : String := ⟨s.data.map Char.toLower⟩

/-- Python `str.startswith(pat)`. -/
def pyStartsWith (s pat : String) : Bool := pat.data.isPrefixOf s.data

/-- Python `str.split()` (split on whitespace runs, dropping empties),
used by `_check_filter` on the `filter` property. -/
def pySplitWs (s : String) : List String :=
  ((s.data.splitOnP (fun c => c = ' ' ∨ c = '\t' ∨ c = '\n' ∨ c = '\r')).map
      String.mk).filter (fun t => t ≠ "")

/-- Python `float(s)` on a string: optional sign, decimal mantissa with at
most one dot and at least one digit, optional exponent.  `none` models a
raised `ValueError`.  (`inf`/`nan` spellings and underscores are not
modelled; no call site in the repository depends on them.) -/
def digitsValQ (cs : List Char) : ℚ :=
  cs.foldl (fun a c => 10 * a + ((c.toNat - 48 : ℕ) : ℚ)) 0

def pyFloat (s : String) : Option ℚ :=
  let cs0 := charStrip s.data
  let sign : ℚ := if cs0.head? = some '-' then -1 else 1
  let cs := if cs0.head? = some '-' ∨ cs0.head? = some '+' then cs0.tail else cs0
  let intDigits := cs.takeWhile Char.isDigit
  let cs1 := cs.drop intDigits.length
  let fracDigits := if cs1.head? = some '.' then cs1.tail.takeWhile Char.isDigit else []
  let cs2 := if cs1.head? = some '.' then cs1.tail.drop fracDigits.length else cs1
  if intDigits.isEmpty ∧ fracDigits.isEmpty then none
  else
    let base : ℚ := digitsValQ (intDigits ++ fracDigits) / (10 : ℚ) ^ fracDigits.length
    if cs2.isEmpty then some (sign * base)
    else if cs2.head? = some 'e' ∨ cs2.head? = some 'E' then
      let rest0 := cs2.tail
      let esign : ℤ := if rest0.head? = some '-' then -1 else 1
      let rest := if rest0.head? = some '-' ∨ rest0.head? = some '+' then rest0.tail else rest0
      let eDigits := rest.takeWhile Char.isDigit
      if eDigits.isEmpty ∨ rest.length ≠ eDigits.length then none
      else
        let ev : ℕ := eDigits.foldl (fun a c => 10 * a + (c.toNat - 48)) 0
        some (sign * base * (10 : ℚ) ^ (esign * (ev : ℤ)))
    else none

/-- `float(...)` where failure is a raised exception. -/
def pyFloatE (s : String) : Except Unit ℚ :=
  match pyFloat s with
  | some q => Except.ok q
  | none => Except.error ()

/-! ## Colour model -/

/-- The `{'rgb': (r, g, b), 'alpha': a}` dictionaries used throughout the
analyzer.  Channels are rationals because the tuple parser's
`max(0, min(x, 255))` keeps non-integer inputs non-integral. -/
structure Color where
  r : ℚ
  g : ℚ
  b : ℚ
  alpha : ℚ
deriving DecidableEq, Repr

/-- The `colortype` argument of `_parse_color`. -/
inductive Role where
  | fg
  | bg
deriving DecidableEq, Repr

def opaqueBlack : Color := ⟨0, 0, 0, 1⟩

def opaqueWhite : Color := ⟨255, 255, 255, 1⟩

def transparentBlack : Color := ⟨0, 0, 0, 0⟩

/-- The per-role fallback of `_parse_color`'s `except` branch. -/
def roleDefault : Role → Color
  | .fg => opaqueBlack
  | .bg => opaqueWhite

/-- The duck-typed input of `_parse_color`: a string, a tuple, a list,
an `{'rgb': …, 'alpha': …}` mapping (with either key possibly missing),
or any other Python object (e.g. `None`), on which the membership test in
`_parse_color_dict` raises. -/
inductive ColorInput where
  | str (s : String)
  | tup (xs : List ℚ)
  | lst (xs : List ℚ)
  | dict (rgb : Option (ℚ × ℚ × ℚ)) (alpha : Option ℚ)
  | pyNone
deriving DecidableEq, Repr

/-- Value of a hex digit (`int(c, 16)` per character); non-hex characters
never reach it because the hex regex guards them. -/
def hexVal (c : Char) : ℕ :=
  if '0' ≤ c ∧ c ≤ '9' then c.toNat - 48
  else if 'a' ≤ c ∧ c ≤ 'f' then c.toNat - 87
  else 0

/-- `int(s, 16)` on a short hex slice. -/
def hexSliceVal (cs : List Char) : ℕ := cs.foldl (fun a c => 16 * a + hexVal c) 0

def isLowerHexDigit (c : Char) : Bool :=
  ('0' ≤ c ∧ c ≤ '9') ∨ ('a' ≤ c ∧ c ≤ 'f')

/-- `COLOR_HEX_RE` (`^#([0-9a-f]{3,8})$`, on the lowered value) together with
the hex branch of `_parse_color_string`: shorthand doubling for 3/4 digits,
first six digits as rgb slices, remaining digits padded with `"ff"` as the
alpha byte. -/
def hexMatch (value : String) : Option Color :=
  match value.data with
  | '#' :: hexDigits =>
    if (hexDigits.all isLowerHexDigit) ∧ 3 ≤ hexDigits.length ∧ hexDigits.length ≤ 8 then
      let hexVal' := if hexDigits.length = 3 ∨ hexDigits.length = 4 then
          hexDigits.flatMap (fun c => [c, c])
        else hexDigits
      let rgbPart := hexVal'.take 6
      let alphaHex := ((hexVal'.drop 6) ++ ['f', 'f']).take 2
      some { r := hexSliceVal (rgbPart.take 2)
             g := hexSliceVal ((rgbPart.drop 2).take 2)
             b := hexSliceVal ((rgbPart.drop 4).take 2)
             alpha := (hexSliceVal alphaHex : ℚ) / 255 }
    else none
  | _ => none

/-- Greedy `\s*` step of the functional-notation regexes. -/
def dropWs (cs : List Char) : List Char := cs.dropWhile (fun c => c.isWhitespace)

/-- Greedy `(\d+)` step: the matched digit token and the remainder. -/
def takeDigits (cs : List Char) : List Char × List Char :=
  (cs.takeWhile Char.isDigit, cs.dropWhile Char.isDigit)

/-- Greedy `([\d.]+)` step. -/
def takeNumTok (cs : List Char) : List Char × List Char :=
  (cs.takeWhile (fun c => c.isDigit ∨ c = '.'), cs.dropWhile (fun c => c.isDigit ∨ c = '.'))

/-- One `\s*,\s*(\d+)` step (or `\s*,\s*(\d+)%` with `pct := true`). -/
def commaDigits (pct : Bool) (cs : List Char) : Option (List Char × List Char) :=
  match dropWs cs with
  | ',' :: rest =>
    let (d, rest) := takeDigits (dropWs rest)
    if d.isEmpty then none
    else if pct then
      match rest with
      | '%' :: rest => some (d, rest)
      | _ => none
    else some (d, rest)
  | _ => none

/-- `RGB_RE.match(value)`:
`rgba?\(\s*(\d+)\s*,\s*(\d+)\s*,\s*(\d+)\s*,?\s*([\d.]+)?\s*\)` anchored at
the start of the (already lowered) value, trailing input ignored.  Returns
the three digit tokens and the optional alpha token. -/
def rgbMatch (value : String) : Option (List Char × List Char × List Char × Option (List Char)) :=
  match value.data with
  | 'r' :: 'g' :: 'b' :: rest =>
    let rest := match rest with
      | 'a' :: r => r
      | r => r
    match rest with
    | '(' :: rest =>
      let (d1, rest) := takeDigits (dropWs rest)
      if d1.isEmpty then none else
      match commaDigits false rest with
      | none => none
      | some (d2, rest) =>
        match commaDigits false rest with
        | none => none
        | some (d3, rest) =>
          let rest := dropWs rest
          let rest := match rest with
            | ',' :: r => r
            | r => r
          let (a, rest) := takeNumTok (dropWs rest)
          let g4 := if a.isEmpty then none else some a
          match dropWs rest with
          | ')' :: _ => some (d1, d2, d3, g4)
          | _ => none
    | _ => none
  | _ => none

/-- `HSL_RE.match(value)`:
`hsla?\(\s*(\d+)\s*,\s*(\d+)%\s*,\s*(\d+)%\s*,?\s*([\d.]+)?\s*\)`.
The regex requires `%` directly after the second and third digit groups
(the `\s*` precedes the comma). -/
def hslMatch (value : String) : Option (List Char × List Char × List Char × Option (List Char)) :=
  match value.data with
  | 'h' :: 's' :: 'l' :: rest =>
    let rest := match rest with
      | 'a' :: r => r
      | r => r
    match rest with
    | '(' :: rest =>
      let (d1, rest) := takeDigits (dropWs rest)
      if d1.isEmpty then none else
      match commaDigits true rest with
      | none => none
      | some (d2, rest) =>
        match commaDigits true rest with
        | none => none
        | some (d3, rest) =>
          let rest := dropWs rest
          let rest := match rest with
            | ',' :: r => r
            | r => r
          let (a, rest) := takeNumTok (dropWs rest)
          let g4 := if a.isEmpty then none else some a
          match dropWs rest with
          | ')' :: _ => some (d1, d2, d3, g4)
          | _ => none
    | _ => none
  | _ => none

/-- `int(token)` on a digit token. -/
def digitsToNat (cs : List Char) : ℕ := cs.foldl (fun a c => 10 * a + (c.toNat - 48)) 0

/-- The `hue_to_rgb` helper of `_hsl_to_rgb`. -/
def hueToRgb (p q t0 : ℚ) : ℚ :=
  let t := t0 + (if t0 < 0 then 1 else 0)
  let t := t - (if 1 < t then 1 else 0)
  if t < 1/6 then p + (q - p) * 6 * t
  else if t < 1/2 then q
  else if t < 2/3 then p + (q - p) * (2/3 - t) * 6
  else p

/-- `_hsl_to_rgb(h, s, l, alpha)`: standard piecewise hue conversion; each
channel is `int(round(x * 255))`; the alpha passes through unchanged. -/
def hslToRgb (h s l alpha : ℚ) : Color :=
  let h := h / 360
  let s := s / 100
  let l := l / 100
  let (r, g, b) : ℚ × ℚ × ℚ :=
    if s = 0 then (l, l, l)
    else
      let q := if l < 1/2 then l * (1 + s) else l + s - l * s
      let p := 2 * l - q
      (hueToRgb p q (h + 1/3), hueToRgb p q h, hueToRgb p q (h - 1/3))
  { r := (pyRound (r * 255) : ℚ)
    g := (pyRound (g * 255) : ℚ)
    b := (pyRound (b * 255) : ℚ)
    alpha := alpha }

/-- Models the external `webcolors.name_to_rgb` lookup (a finite standard
name → rgb table; shown here restricted to representative CSS entries —
every entry of the real table is likewise an rgb byte triple).  An unknown
name raises, modelled by `none`. -/
def namedColorTable : List (String × ℕ × ℕ × ℕ) :=
  [("black", 0, 0, 0), ("silver", 192, 192, 192), ("gray", 128, 128, 128),
   ("white", 255, 255, 255), ("maroon", 128, 0, 0), ("red", 255, 0, 0),
   ("purple", 128, 0, 128), ("fuchsia", 255, 0, 255), ("green", 0, 128, 0),
   ("lime", 0, 255, 0), ("olive", 128, 128, 0), ("yellow", 255, 255, 0),
   ("navy", 0, 0, 128), ("blue", 0, 0, 255), ("teal", 0, 128, 128),
   ("aqua", 0, 255, 255), ("orange", 255, 165, 0), ("pink", 255, 192, 203),
   ("gold", 255, 215, 0), ("brown", 165, 42, 42), ("ivory", 255, 255, 240),
   ("beige", 245, 245, 220), ("snow", 255, 250, 250), ("khaki", 240, 230, 140),
   ("indigo", 75, 0, 130), ("violet", 238, 130, 238), ("coral", 255, 127, 80),
   ("salmon", 250, 128, 114), ("tomato", 255, 99, 71), ("crimson", 220, 20, 60),
   ("lavender", 230, 230, 250), ("plum", 221, 160, 221), ("orchid", 218, 112, 214),
   ("tan", 210, 180, 140), ("wheat", 245, 222, 179), ("azure", 240, 255, 255)]

def namedLookup (value : String) : Option (ℕ × ℕ × ℕ) :=
  (namedColorTable.lookup value)

/-- `_parse_color_string`, on the stripped and lowered value; `none` models a
raised exception (unknown colour name, or `float()` failing on a matched
alpha token). -/
def parseColorString (s : String) : Option Color :=
  let value := pyLower (pyStrip s)
  if value = "transparent" then some transparentBlack
  else match hexMatch value with
  | some c => some c
  | none =>
    match rgbMatch value with
    | some (d1, d2, d3, g4) =>
      let alpha? : Option ℚ := match g4 with
        | none => some 1
        | some tok => pyFloat (String.mk tok)
      match alpha? with
      | some a => some ⟨digitsToNat d1, digitsToNat d2, digitsToNat d3, a⟩
      | none => none
    | none =>
      match hslMatch value with
      | some (d1, d2, d3, g4) =>
        let alpha? : Option ℚ := match g4 with
          | none => some 1
          | some tok => pyFloat (String.mk tok)
        match alpha? with
        | some a => some (hslToRgb (digitsToNat d1) (digitsToNat d2) (digitsToNat d3) a)
        | none => none
      | none =>
        match namedLookup value with
        | some (r, g, b) => some ⟨r, g, b, 1⟩
        | none => none

/-- `_parse_color_tuple`: wrong arity falls back to opaque black *inside* the
helper (ignoring the role); otherwise channels are clamped to `[0, 255]` and
the alpha to `[0, 1]`. -/
def parseColorTuple (xs : List ℚ) : Color :=
  match xs with
  | [r, g, b] => ⟨clampQ 0 255 r, clampQ 0 255 g, clampQ 0 255 b, clampQ 0 1 1⟩
  | [r, g, b, a] => ⟨clampQ 0 255 r, clampQ 0 255 g, clampQ 0 255 b, clampQ 0 1 a⟩
  | _ => opaqueBlack

/-- `_parse_color`: duck-typed dispatch wrapped in a bare `except` that
returns the role default (black for `fg`, white for `bg`).  A mapping with
both keys is passed through; a mapping missing a key returns opaque black
from inside `_parse_color_dict`; any other object makes the membership test
raise, landing in the role-default branch. -/
def parseColor (v : ColorInput) (role : Role) : Color :=
  match v with
  | .str s => (parseColorString s).getD (roleDefault role)
  | .tup xs => parseColorTuple xs
  | .lst xs => parseColorTuple xs
  | .dict (some rgb) (some a) => ⟨rgb.1, rgb.2.1, rgb.2.2, a⟩
  | .dict _ _ => opaqueBlack
  | .pyNone => roleDefault role

/-- `_blend_colors` on two colour dictionaries: zero foreground alpha
short-circuits to fully transparent black; otherwise standard
`over`-compositing with each channel truncated by `int(min(255, …))`. -/
def blendColors (fg bg : Color) : Color :=
  if fg.alpha = 0 then transparentBlack
  else
    { r := (pyInt (min 255 (fg.r * fg.alpha + bg.r * bg.alpha * (1 - fg.alpha))) : ℚ)
      g := (pyInt (min 255 (fg.g * fg.alpha + bg.g * bg.alpha * (1 - fg.alpha))) : ℚ)
      b := (pyInt (min 255 (fg.b * fg.alpha + bg.b * bg.alpha * (1 - fg.alpha))) : ℚ)
      alpha := fg.alpha + bg.alpha * (1 - fg.alpha) }

/-! ## Style values and the opacity accumulator -/

/-- A value stored in a style dictionary: a parsed colour dictionary, a raw
string, or the accumulated opacity.  `num q` models the code's
`f"{q:.2f}"`-formatted opacity string via its exact rounded value (the only
consumers are `float(...)`, which round-trips it, and `str(...)`). -/
inductive Val where
  | col (c : Color)
  | str (s : String)
  | num (q : ℚ)
deriving DecidableEq, Repr

/-- A resolved style: the Python dict, as an insertion-ordered association
list with unique keys. -/
abbrev StyleMap := List (String × Val)

/-- Python dict lookup. -/
def lookupStyle (st : StyleMap) (k : String) : Option Val := st.lookup k

/-- Python dict assignment: replace in place, else append. -/
def setStyle : StyleMap → String → Val → StyleMap
  | [], k, v => [(k, v)]
  | kv :: rest, k, v => if kv.1 = k then (k, v) :: rest else kv :: setStyle rest k v

/-- Same operation on string-valued association lists (used to model the
`dict(...)` constructor and dict comprehensions, which keep the last value
for a repeated key at its first position). -/
def setAssoc : List (String × String) → String → String → List (String × String)
  | [], k, v => [(k, v)]
  | kv :: rest, k, v => if kv.1 = k then (k, v) :: rest else kv :: setAssoc rest k v

def pyDict (ps : List (String × String)) : List (String × String) :=
  ps.foldl (fun acc p => setAssoc acc p.1 p.2) []

/-- An argument flowing into `_parse_opacity`: the Python value is a string
in the intended call, but `style['color']['alpha']` (a float) is passed on
the alpha-folding paths, and `ofOther` covers any value on which
`float(...)` raises. -/
inductive OpacityArg where
  | ofStr (s : String)
  | ofFloat (q : ℚ)
  | ofOther

def opacityFloat : OpacityArg → Option ℚ
  | .ofStr s => pyFloat s
  | .ofFloat q => some q
  | .ofOther => none

/-- `_parse_opacity(current_value, parent_opacity)`.  The parent value falls
back to `1.0` when `float` fails.  The current value is stripped,
`%`-cleaned, parsed and clamped — but a *float* argument makes `.strip()`
raise `AttributeError`, so the bare `except` silently resets the factor to
`1.0` (this is how the colour-alpha folding is lost).  The result models the
returned `f"{…:.2f}"` string. -/
def parseOpacity (current parent : OpacityArg) : ℚ :=
  let parentAlpha := (opacityFloat parent).getD 1
  let currentAlpha : ℚ :=
    match current with
    | .ofStr s =>
      match pyFloat (String.mk ((charStrip s.data).filter (fun c => c ≠ '%'))) with
      | some a => clampQ 0 1 (if s.data.contains '%' then a / 100 else a)
      | none => 1
    | _ => 1
  round2 (parentAlpha * currentAlpha)

def valToOpacityArg : Val → OpacityArg
  | .str s => .ofStr s
  | .num q => .ofFloat q
  | .col _ => .ofOther

/-- `_parse_color` applied to a value already stored in a style dict: colour
dictionaries pass through `_parse_color_dict` unchanged, strings re-parse,
anything else lands on the role default. -/
def colorOfVal (role : Role) : Val → Color
  | .col c => c
  | .str s => parseColor (.str s) role
  | .num _ => roleDefault role

/-! ## Font sizes and lengths -/

/-- The traditional 7-level HTML font-size table. -/
def fontSizeTable : ℕ → ℕ
  | 1 => 10
  | 2 => 13
  | 3 => 16
  | 4 => 18
  | 5 => 24
  | 6 => 32
  | 7 => 48
  | _ => 16

/-- `^([\d.]+)(px|pt|em|%)$` as a full match on the lowered value. -/
def fontSizeModernMatch (v : String) : Option (List Char × String) :=
  let (tok, rest) := takeNumTok v.data
  if tok.isEmpty then none
  else match rest with
  | ['p', 'x'] => some (tok, "px")
  | ['p', 't'] => some (tok, "pt")
  | ['e', 'm'] => some (tok, "em")
  | ['%'] => some (tok, "%")
  | _ => none

/-- `_parse_font_size`: traditional bare 1–7 sizes map through the legacy
table; `pt` converts at `round(x * 1.333)`; `px`/`em`/`%` re-format the
parsed float; everything else defaults to `"16px"`.  `float` on a matched
token with several dots (`"1..px"`) raises, which propagates to the
caller — modelled by `Except.error`. -/
def parseFontSize (value : String) : Except Unit String :=
  let v := pyLower (pyStrip value)
  if v.data ≠ [] ∧ v.data.all Char.isDigit ∧ 1 ≤ digitsToNat v.data ∧ digitsToNat v.data ≤ 7 then
    .ok (natStr (fontSizeTable (digitsToNat v.data)) ++ "px")
  else
    match fontSizeModernMatch v with
    | some (tok, unit) =>
      match pyFloat (String.mk tok) with
      | none => .error ()
      | some num =>
        if unit = "pt" then .ok (intStr (pyRound (num * (1333/1000))) ++ "px")
        else .ok (formatQ num ++ unit)
    | none => .ok "16px"

/-- `str(value)` on a style value as it reaches `_parse_length`.  A colour
dict's `str` begins with a brace, which the length regex cannot match; any
stand-in starting with a non-`[-+\d.]` character is observationally
identical there. -/
def pyStrVal : Val → String
  | .str s => s
  | .num q => formatQ q
  | .col _ => "dict repr"

/-- `LENGTH_RE.match(str(value))`: `([-+]?[\d.]+)(px|pt|em|rem|%)?`,
anchored at the start only. -/
def lengthMatch (s : String) : Option (String × Option String) :=
  let cs := s.data
  let sign : String :=
    if cs.head? = some '-' then "-" else if cs.head? = some '+' then "+" else ""
  let cs' := if cs.head? = some '-' ∨ cs.head? = some '+' then cs.tail else cs
  let (tok, rest) := takeNumTok cs'
  if tok.isEmpty then none
  else
    let unit : Option String :=
      match rest with
      | 'p' :: 'x' :: _ => some "px"
      | 'p' :: 't' :: _ => some "pt"
      | 'e' :: 'm' :: _ => some "em"
      | 'r' :: 'e' :: 'm' :: _ => some "rem"
      | '%' :: _ => some "%"
      | _ => none
    some (sign ++ String.mk tok, unit)

/-- `_parse_length(value, base_size=16)`: `none` inside `ok` models the
`return None` on no match; `Except.error` models `float` raising on a
matched token such as `"."`. -/
def parseLength (v : Val) (base : ℚ) : Except Unit (Option ℚ) :=
  match lengthMatch (pyStrVal v) with
  | none => .ok none
  | some (numTok, unit) =>
    match pyFloat numTok with
    | none => .error ()
    | some num =>
      .ok (some (if unit = some "pt" then num * (1333/1000)
        else if unit = some "em" then num * base
        else if unit = some "rem" then num * 16
        else if unit = some "%" then num / 100 * base
        else num))

/-! ## Document nodes -/

/-- A parsed document node: an element (`Tag`) with attributes and ordered
children, a text node (`NavigableString`), or a comment/declaration. -/
inductive Node where
  | elem (name : String) (attrs : List (String × String)) (children : List Node)
  | text (s : String)
  | comment (s : String)

/-- `EXCLUDED_TAGS | {'br', 'hr', 'img', 'meta', 'link'}`. -/
def NON_STYLABLE_TAGS : List String :=
  ["script", "style", "meta", "link", "noscript", "svg", "img", "title", "br", "hr"]

def INHERITABLE_PROPS : List String :=
  ["color", "font-family", "font-size", "font-weight", "font-style", "line-height",
   "text-indent", "visibility", "opacity", "background-color", "bgcolor"]

/-- `DEFAULT_STYLE`. -/
def DEFAULT_STYLE : StyleMap :=
  [("color", .col opaqueBlack),
   ("background-color", .col opaqueWhite),
   ("font-size", .str "16px"),
   ("opacity", .str "1")]

mutual
/-- `node.stripped_strings`: the stripped, non-empty descendant text pieces
in document order (comments/declarations are not interesting strings). -/
def strippedStrings : Node → List String
  | .text s => if pyStrip s = "" then [] else [pyStrip s]
  | .comment _ => []
  | .elem _ _ cs => strippedStringsL cs

def strippedStringsL : List Node → List String
  | [] => []
  | c :: cs => strippedStrings c ++ strippedStringsL cs
end

/-- `_has_any_text`: some descendant string survives stripping. -/
def hasAnyText (n : Node) : Bool := strippedStrings n ≠ []

/-- `_is_valid_node` restricted to what the prune/path logic needs: a tag
whose name is stylable (comments and text are not tags). -/
def isValidNode : Node → Bool
  | .elem nm _ _ => nm ∉ NON_STYLABLE_TAGS
  | _ => false

/-- `_has_meaningful_children`: a *direct* child that is a valid tag. -/
def hasMeaningfulChildren (children : List Node) : Bool :=
  children.any isValidNode

/-- Emptiness of an already-pruned node, as computed at the end of
`_prune_empty_nodes`; non-tags always report `False`. -/
def isEmptyNow : Node → Bool
  | .elem _ _ cs => ¬ hasAnyText (.elem "" [] cs) ∧ ¬ hasMeaningfulChildren cs
  | _ => false

mutual
/-- `_prune_empty_nodes`: post-order traversal decomposing every child whose
pruned subtree is empty; the node itself is left in place (the root's own
emptiness flag is discarded by `_prune_tree`). -/
def prune : Node → Node
  | .elem nm a cs => .elem nm a (pruneKept cs)
  | n => n

def pruneKept : List Node → List Node
  | [] => []
  | c :: cs =>
    let c' := prune c
    if isEmptyNow c' then pruneKept cs else c' :: pruneKept cs
end

/-- `_get_node_text`: join the stripped direct text children only. -/
def getNodeText : Node → String
  | .elem _ _ cs =>
    pyStrip (String.intercalate " "
      ((cs.filterMap (fun c => match c with
        | .text s => if pyStrip s = "" then none else some (pyStrip s)
        | _ => none))))
  | _ => ""

/-- `_get_link_text`: `' '.join(node.stripped_strings)`. -/
def getLinkText (n : Node) : String := String.intercalate " " (strippedStrings n)

/-! ## Inline style declarations -/

/-- One attempt of `STYLE_PROP_RE` (`([a-zA-Z-]+)\s*:\s*([^;]+)`) at the
current position: property token, value token, and the remainder. -/
def findPropAt (cs : List Char) : Option ((List Char × List Char) × List Char) :=
  let name := cs.takeWhile (fun c => c.isAlpha ∨ c = '-')
  if name.isEmpty then none
  else
    match dropWs (cs.drop name.length) with
    | ':' :: rest =>
      let rest := dropWs rest
      let v := rest.takeWhile (fun c => c ≠ ';')
      if v.isEmpty then none
      else some ((name, v), rest.drop v.length)
    | _ => none

/-- `STYLE_PROP_RE.findall`: scan for non-overlapping matches, advancing one
character after a failed attempt. -/
def styleFindallAux : ℕ → List Char → List (String × String)
  | 0, _ => []
  | fuel + 1, cs =>
    match cs with
    | [] => []
    | _ :: tail =>
      match findPropAt cs with
      | some ((n, v), rest) => (String.mk n, String.mk v) :: styleFindallAux fuel rest
      | none => styleFindallAux fuel tail

def styleFindall (s : String) : List (String × String) :=
  styleFindallAux s.data.length s.data

/-! ## The style cascade (`_parse_node_style`) -/

def attrGet (attrs : List (String × String)) (k : String) : Option String := attrs.lookup k

/-- The `{k.lower(): v for k, v in node.attrs.items()}` comprehension. -/
def attrsLower (attrs : List (String × String)) : List (String × String) :=
  pyDict (attrs.map (fun kv => (pyLower kv.1, kv.2)))

def alignMap (v : String) : String :=
  if v = "left" then "left"
  else if v = "right" then "right"
  else if v = "center" then "center"
  else if v = "middle" then "center"
  else if v = "justify" then "justify"
  else "left"

/-- One inline declaration applied to the running `(style, opacity)` state
(the body of the `for prop, value in inline_style.items()` loop). -/
def applyInlineProp (acc : StyleMap × ℚ) (p : String × String) : Except Unit (StyleMap × ℚ) := do
  let prop := pyLower p.1
  let value := p.2
  if prop = "background-color" ∨ prop = "bgcolor" then
    pure (setStyle acc.1 "background-color" (.col (parseColor (.str value) .bg)), acc.2)
  else if prop = "color" then
    let c := parseColor (.str value) .fg
    pure (setStyle acc.1 "color" (.col c), parseOpacity (.ofFloat c.alpha) (.ofFloat acc.2))
  else if prop = "font-size" then do
    let fs ← parseFontSize value
    pure (setStyle acc.1 "font-size" (.str fs), acc.2)
  else if prop = "opacity" then
    pure (acc.1, parseOpacity (.ofStr value) (.ofFloat acc.2))
  else
    pure (setStyle acc.1 prop (.str value), acc.2)

def tableTags : List String := ["table", "tr", "td", "th", "font", "body"]

/-- The legacy `<font color=…>` handling inside `_parse_node_style`. -/
def fontColorStage (name : String) (al : List (String × String)) (inh : StyleMap)
    (cur0 : ℚ) : StyleMap × ℚ :=
  if name = "font" then
    match al.lookup "color" with
    | some v =>
      let c := parseColor (.str v) .fg
      (setStyle inh "color" (.col c), parseOpacity (.ofFloat c.alpha) (.ofFloat cur0))
    | none => (inh, cur0)
  else (inh, cur0)

/-- The legacy `<font size=…>` handling inside `_parse_node_style`. -/
def fontSizeStage (name : String) (al : List (String × String)) (st1 : StyleMap) :
    Except Unit StyleMap :=
  if name = "font" then
    match al.lookup "size" with
    | some v => do
      let fs ← parseFontSize v
      pure (setStyle st1 "font-size" (.str fs))
    | none => pure st1
  else pure st1

/-- The `bgcolor` presentational attribute inside `_parse_node_style`. -/
def tableBgStage (al : List (String × String)) (st2 : StyleMap) : StyleMap :=
  match al.lookup "bgcolor" with
  | some v =>
    let parsed := parseColor (.str v) .bg
    match lookupStyle st2 "background-color" with
    | some existing =>
      setStyle st2 "background-color" (.col (blendColors parsed (colorOfVal .bg existing)))
    | none => setStyle st2 "background-color" (.col parsed)
  | none => st2

/-- The `text` presentational attribute inside `_parse_node_style`. -/
def tableTextStage (al : List (String × String)) (st3 : StyleMap) (cur1 : ℚ) :
    StyleMap × ℚ :=
  match al.lookup "text" with
  | some v =>
    let c := parseColor (.str v) .fg
    (setStyle st3 "color" (.col c), parseOpacity (.ofFloat c.alpha) (.ofFloat cur1))
  | none => (st3, cur1)

/-- The `align` presentational attribute inside `_parse_node_style`. -/
def tableAlignStage (al : List (String × String)) (st3 : StyleMap) : StyleMap :=
  match al.lookup "align" with
  | some v => setStyle st3 "text-align" (.str (alignMap (pyLower v)))
  | none => st3

/-- The `width` presentational attribute inside `_parse_node_style`. -/
def tableWidthStage (al : List (String × String)) (st3 : StyleMap) : StyleMap :=
  match al.lookup "width" with
  | some w =>
    if w.data ≠ [] ∧ w.data.all Char.isDigit then setStyle st3 "width" (.str (w ++ "px"))
    else setStyle st3 "width" (.str w)
  | none => st3

/-- The table-family presentational attributes (`bgcolor`, `text`, `align`,
`width`) inside `_parse_node_style`. -/
def tableStage (name : String) (al : List (String × String)) (st2 : StyleMap)
    (cur1 : ℚ) : StyleMap × ℚ :=
  if name ∈ tableTags then
    let (st3, cur2) := tableTextStage al (tableBgStage al st2) cur1
    (tableWidthStage al (tableAlignStage al st3), cur2)
  else (st2, cur1)

/-- The `style="…"` inline-declaration loop inside `_parse_node_style`. -/
def inlineStage (attrs : List (String × String)) (acc : StyleMap × ℚ) :
    Except Unit (StyleMap × ℚ) :=
  match attrGet attrs "style" with
  | some sv => (pyDict (styleFindall sv)).foldlM applyInlineProp acc
  | none => pure acc

/-- `_parse_node_style(node, inherited_style)`.  Exceptions from the
font-size normaliser propagate; calling it on a non-tag (which never happens
in the pipeline) is modelled as an error. -/
def parseNodeStyle (node : Node) (inherited : StyleMap) : Except Unit StyleMap :=
  match node with
  | .elem name attrs _ => do
    let al := attrsLower attrs
    -- element-level opacity attribute folded with the inherited opacity
    let cur0 := parseOpacity (.ofStr ((attrGet attrs "opacity").getD "1"))
      (valToOpacityArg ((lookupStyle inherited "opacity").getD (.str "1.0")))
    let (st1, cur1) := fontColorStage name al inherited cur0
    let st2 ← fontSizeStage name al st1
    let (st3, cur2) := tableStage name al st2 cur1
    let (st4, cur3) ← inlineStage attrs (st3, cur2)
    pure (setStyle st4 "opacity" (.num cur3))
  | _ => .error ()

/-! ## The visibility classifier (`_check_visibility`) -/

/-- The reason tags appended by `_check_visibility` (the code builds
formatted strings; the payloads carry the formatted values). -/
inductive Reason where
  | visibilityHidden
  | displayNone
  | opacityLow (o : ℚ)
  | sameColor
  | lowContrast (c : ℚ)
  | positionOffset
  | clipping
  | fontTooSmall (px : ℚ)
  | filterEffect
deriving DecidableEq, Repr

/-- Monadic `any(...)`: short-circuits like the Python generator, so an
exception in a later element is never reached once a truthy one is found. -/
def anyE {α : Type} (f : α → Except Unit Bool) : List α → Except Unit Bool
  | [] => .ok false
  | x :: xs => do
    if (← f x) then pure true else anyE f xs

/-- Substring containment (Python `pattern in value`). -/
def isSubstr (pat hay : String) : Bool :=
  (List.range (hay.data.length + 1)).any (fun i => pat.data.isPrefixOf (hay.data.drop i))

/-- `_is_large_offset(value, threshold=1000)`: a falsy parse (no match, or
value `0.0`) fails the test; `float` raising on a matched token
propagates. -/
def isLargeOffset (v : Val) : Except Unit Bool := do
  match (← parseLength v 16) with
  | none => pure false
  | some q => pure (decide (q ≠ 0 ∧ |q| > 1000))

/-- The offset property set of `_check_position_offset` (a Python set
literal; iteration order is interpreter-determined — it only affects which
of several simultaneous errors fires first, which no claim depends on). -/
def offsetProps : List String :=
  ["left", "right", "top", "bottom", "margin-left", "margin-right",
   "margin-top", "margin-bottom", "text-indent"]

def checkPositionOffset (style : StyleMap) : Except Unit Bool :=
  anyE (fun p => isLargeOffset ((lookupStyle style p).getD (.str "0"))) offsetProps

/-- `_is_hidden_clip` on a stored value: `.lower()` raises on a non-string. -/
def isHiddenClipE (v : Val) : Except Unit Bool :=
  match v with
  | .str s =>
    let lv := pyLower s
    .ok (isSubstr "inset(100%" lv ∨ isSubstr "rect(0" lv ∨
         isSubstr "circle(0" lv ∨ isSubstr "polygon(0 0" lv)
  | _ => .error ()

def checkClipping (style : StyleMap) : Except Unit Bool :=
  anyE (fun p =>
      match lookupStyle style p with
      | some v => isHiddenClipE v
      | none => .ok false)
    ["clip-path", "clip"]

/-- `.strip('%')` (both ends). -/
def stripPct (cs : List Char) : List Char :=
  ((cs.dropWhile (fun c => c = '%')).reverse.dropWhile (fun c => c = '%')).reverse

/-- `_is_hiding_filter`.  Note `filter_func[7:-1]` keeps the opening
parenthesis of `opacity(…)` (index 7 is the `(`), so `float` raises on
every opacity filter; `blur(…)` slices correctly but compares `None > 10`
(a raise) when the inner value does not parse. -/
def isHidingFilter (f0 : String) : Except Unit Bool :=
  let f := pyLower f0
  if pyStartsWith f "opacity(" then do
    let x ← pyFloatE (String.mk (stripPct ((f.data.drop 7).dropLast)))
    pure (x ≤ 5)
  else if pyStartsWith f "blur(" then do
    match (← parseLength (.str (String.mk ((f.data.drop 5).dropLast))) 16) with
    | none => .error ()
    | some q => pure (10 < q)
  else pure false

def checkFilterE (style : StyleMap) : Except Unit Bool :=
  match lookupStyle style "filter" with
  | none => .ok false
  | some (.str s) => anyE isHidingFilter (pySplitWs s)
  | some _ => .error ()

/-- `float(style.get('opacity', 1))`. -/
def styleOpacityFloat (style : StyleMap) : Except Unit ℚ :=
  match lookupStyle style "opacity" with
  | none => .ok 1
  | some (.num q) => .ok q
  | some (.str s) => pyFloatE s
  | some (.col _) => .error ()

/-- A stored style value fed back into `_parse_color`: a colour dict takes
the mapping branch, a string re-parses, a float lands in the raising
fallback. -/
def valToColorInput : Val → ColorInput
  | .col c => .dict (some (c.r, c.g, c.b)) (some c.alpha)
  | .str s => .str s
  | .num _ => .pyNone

/-- `final_fg = self._parse_color(style['color'])` — the unguarded lookup
raises `KeyError` on a missing key. -/
def finalFgE (style : StyleMap) : Except Unit Color :=
  match lookupStyle style "color" with
  | none => .error ()
  | some v => .ok (parseColor (valToColorInput v) .fg)

/-- `bg = self._parse_color(style.get('background-color'), 'bg')`. -/
def styleBg (style : StyleMap) : Color :=
  parseColor
    (match lookupStyle style "background-color" with
     | none => .pyNone
     | some v => valToColorInput v)
    .bg

/-- `final_bg = self._parse_color(self._blend_colors(bg,
DEFAULT_STYLE['background-color']))`: the resolved background composited
over the default opaque white, passed back through the dict branch of the
colour parser. -/
def finalBg (style : StyleMap) : Color :=
  let blended := blendColors (styleBg style) opaqueWhite
  parseColor (.dict (some (blended.r, blended.g, blended.b)) (some blended.alpha)) .fg

/-- `_check_visibility(style)`, parameterised by the contrast function
(`_calculate_contrast` uses the non-rational sRGB gamma `** 2.4`; every
property proved below holds for an arbitrary contrast function). -/
def checkVisibility (contr : Color → Color → ℚ) (style : StyleMap) :
    Except Unit (Bool × List Reason) := do
  let r1 := if lookupStyle style "visibility" = some (.str "hidden") ∨
               lookupStyle style "visibility" = some (.str "collapse")
    then [Reason.visibilityHidden] else []
  let r2 := if lookupStyle style "display" = some (.str "none")
    then [Reason.displayNone] else []
  let op ← styleOpacityFloat style
  let r3 := if op ≤ 1/100 then [Reason.opacityLow op] else []
  let ffg ← finalFgE style
  let fbg := finalBg style
  let c := contr ffg fbg
  let r4 := if ffg = fbg then [Reason.sameColor]
    else if c < 21/20 then [Reason.lowContrast c] else []
  let off ← checkPositionOffset style
  let r5 := if off then [Reason.positionOffset] else []
  let clip ← checkClipping style
  let r6 := if clip then [Reason.clipping] else []
  let fs? ← parseLength ((lookupStyle style "font-size").getD (.str "16px")) 16
  let fs ← match fs? with
    | none => Except.error ()
    | some q => Except.ok q
  let r7 := if fs < 3 then [Reason.fontTooSmall fs] else []
  let filt ← checkFilterE style
  let r8 := if filt then [Reason.filterEffect] else []
  let rs := r1 ++ r2 ++ r3 ++ r4 ++ r5 ++ r6 ++ r7 ++ r8
  pure (rs.isEmpty, rs)

/-! ## The document analyzer (`analyze_paths`) -/

inductive RecType where
  | text
  | link
  | htmlComment
  | conditionalComment
deriving DecidableEq, Repr

/-- One emitted analysis record; `hiddenReasons` is `[]` when visible. -/
structure ARecord where
  typ : RecType
  txt : String
  url : String
  style : StyleMap
  visible : Bool
  hiddenReasons : List Reason
deriving DecidableEq, Repr

def nodeName : Node → String
  | .elem nm _ _ => nm
  | _ => ""

def nodeAttrs : Node → List (String × String)
  | .elem _ a _ => a
  | _ => []

/-- `_process_anchor_tag(node, inherited_style)`. -/
def processAnchorTag (contr : Color → Color → ℚ) (node : Node) (inherited : StyleMap) :
    Except Unit (Option ARecord) := do
  let t := getLinkText node
  if t = "" then pure none
  else do
    let st ← parseNodeStyle node inherited
    let (v, rs) ← checkVisibility contr st
    pure (some { typ := .link, txt := t, url := (attrGet (nodeAttrs node) "href").getD "",
                 style := st, visible := v, hiddenReasons := if v then [] else rs })

/-- The per-path loop body of `analyze_paths`: anchors emit a link record
and `break` (without touching `file_visible`); other nodes emit a text
record when they own direct text, fold its visibility into the flag, and
pass the inheritable subset of their resolved style to the rest of the
path.  Returns the path's records and its contribution to `file_visible`. -/
def walkPath (contr : Color → Color → ℚ) : List Node → StyleMap →
    Except Unit (List ARecord × Bool)
  | [], _ => pure ([], true)
  | n :: rest, inh =>
    if nodeName n = "a" then do
      let r? ← processAnchorTag contr n inh
      pure ((match r? with | some r => [r] | none => []), true)
    else do
      let st ← parseNodeStyle n inh
      let t := getNodeText n
      let inh2 := st.filter (fun kv => kv.1 ∈ INHERITABLE_PROPS)
      if t ≠ "" then do
        let (v, rs) ← checkVisibility contr st
        let (tailRecs, tailVis) ← walkPath contr rest inh2
        pure ({ typ := .text, txt := t, url := "", style := st,
                visible := v, hiddenReasons := if v then [] else rs } :: tailRecs,
              v && tailVis)
      else do
        let (tailRecs, tailVis) ← walkPath contr rest inh2
        pure (tailRecs, tailVis)

/-- A comment found by `_process_comments`: its text, whether its parent is
a `div.conditional-container`, and — for merged conditional blocks — the
records of the recursive sub-analysis of that container (the recursion
re-parses HTML, so its output is supplied as data here; the override the
code applies to each sub-record is modelled exactly). -/
structure CommentInput where
  txt : String
  inContainer : Bool
  subRecords : List ARecord
deriving DecidableEq, Repr

/-- `_process_comments`: a `[cond:…]` sentinel comment re-emits the
sub-analysis records re-tagged `conditional_comment` with `visible = False`
— but only when its parent is a conditional-container div (which
`_handle_split_conditionals` never creates); otherwise it contributes
nothing.  Ordinary comments become `html_comment` records with
`visible = False`. -/
def processComment (c : CommentInput) : List ARecord :=
  let t := pyStrip c.txt
  if pyStartsWith t "[cond:" then
    if c.inContainer then
      c.subRecords.map (fun r => { r with typ := .conditionalComment, visible := false })
    else []
  else
    [{ typ := .htmlComment, txt := t, url := "", style := [], visible := false,
       hiddenReasons := [] }]

def processComments (cs : List CommentInput) : List ARecord :=
  cs.flatMap processComment

/-- One iteration of the path loop of `analyze_paths`: walk the path from
the default style, append its records, and fold its visibility into the
accumulated `file_visible`. -/
def pathStep (contr : Color → Color → ℚ) (acc : List ARecord × Bool) (path : List Node) :
    Except Unit (List ARecord × Bool) := do
  let (rs, v) ← walkPath contr path DEFAULT_STYLE
  pure (acc.1 ++ rs, acc.2 && v)

/-- `analyze_paths`: walk every collected path from the default style,
then append the comment records; return all records and the document
verdict `file_visible`. -/
def analyzePaths (contr : Color → Color → ℚ) (paths : List (List Node))
    (comments : List CommentInput) : Except Unit (List ARecord × Bool) := do
  let (results, fileVisible) ← paths.foldlM (pathStep contr) ([], true)
  pure (results ++ processComments comments, fileVisible)

/-! ## The conditional-comment normaliser (`_handle_split_conditionals`)

The source compiles `SPLIT_CONDITIONAL_RE` from the raw pattern
`<!$$if\s+([^>]+)$$>([\s\S]*?)<!$$endif$$>` — the `$` characters are
literal in the file and are therefore *end anchors* in the regex: without
`re.MULTILINE`, `$` matches only at the end of the input or just before a
trailing final newline.  The model below implements exactly that
semantics. -/

/-- A case-insensitive literal character at position `p` (the regex is
compiled with `re.IGNORECASE`). -/
def litAt (cs : List Char) (p : ℕ) (c : Char) : Bool :=
  match cs[p]? with
  | some d => d.toLower == c
  | none => false

/-- The `$` anchor: end of input, or just before a final trailing newline. -/
def dollarOk (cs : List Char) (p : ℕ) : Bool :=
  (p == cs.length) || (p + 1 == cs.length && cs[p]? == some '\n')

/-- The literal `<!$$endif$$>` part of the pattern, attempted at `p`. -/
def endifAt (cs : List Char) (p : ℕ) : Option ℕ :=
  if litAt cs p '<' && litAt cs (p+1) '!' && dollarOk cs (p+2) && dollarOk cs (p+2)
     && litAt cs (p+2) 'e' && litAt cs (p+3) 'n' && litAt cs (p+4) 'd'
     && litAt cs (p+5) 'i' && litAt cs (p+6) 'f' && dollarOk cs (p+7) && dollarOk cs (p+7)
     && litAt cs (p+7) '>' then some (p + 8)
  else none

/-- The pattern after the `<!$$if` prefix: `\s+([^>]+)$$>` (greedy, with
give-back over the split points) followed by the lazy `([\s\S]*?)` and the
endif literal.  Returns the condition slice, the fragment slice and the
match end. -/
def matchSplitTail (cs : List Char) (p : ℕ) : Option (List Char × List Char × ℕ) :=
  let wsMax := ((cs.drop p).takeWhile Char.isWhitespace).length
  ((List.range wsMax).reverse.map (fun k => k + 1)).findSome? (fun w =>
    let condStart := p + w
    let condMax := ((cs.drop condStart).takeWhile (fun c => c ≠ '>')).length
    ((List.range condMax).reverse.map (fun k => k + 1)).findSome? (fun k =>
      let q := condStart + k
      if dollarOk cs q && dollarOk cs q && litAt cs q '>' then
        (List.range (cs.length + 1)).findSome? (fun m =>
          match endifAt cs (q + 1 + m) with
          | some e => some ((cs.drop condStart).take k, (cs.drop (q + 1)).take m, e)
          | none => none)
      else none))

/-- One attempt of `SPLIT_CONDITIONAL_RE` at position `i`: the literal
`<!`, the two `$` anchors, the literal `if`, then the tail. -/
def matchSplitAt (cs : List Char) (i : ℕ) : Option (List Char × List Char × ℕ) :=
  if litAt cs i '<' && litAt cs (i+1) '!' && dollarOk cs (i+2) && dollarOk cs (i+2)
     && litAt cs (i+2) 'i' && litAt cs (i+3) 'f' then
    matchSplitTail cs (i+4)
  else none

/-- `finditer`: scan forward, resuming after each match. -/
def findSplitAux : ℕ → List Char → ℕ → List (List Char × List Char)
  | 0, _, _ => []
  | fuel + 1, cs, i =>
    match matchSplitAt cs i with
    | some (c, f, e) => (c, f) :: findSplitAux fuel cs e
    | none => findSplitAux fuel cs (i + 1)

def findSplitMatches (s : String) : List (List Char × List Char) :=
  findSplitAux (s.data.length + 1) s.data 0

/-- `condition_map[condition].append(html_fragment)` on a `defaultdict`. -/
def addFrag : List (String × List String) → String → String → List (String × List String)
  | [], c, f => [(c, [f])]
  | cf :: rest, c, f =>
    if cf.1 = c then (c, cf.2 ++ [f]) :: rest else cf :: addFrag rest c f

/-- Phase 1 of `_handle_split_conditionals` (the textual pass; phase 2 just
hands the result to the HTML parser): group the regex matches by stripped
condition, build a merged sentinel block per condition with several
fragments, and `re.sub` each escaped original occurrence by the merged
block. -/
def handleSplitText (content : String) : String :=
  let ms := (findSplitMatches content).map
    (fun cf => (pyStrip (String.mk cf.1), String.mk cf.2))
  let cmap := ms.foldl (fun acc p => addFrag acc p.1 p.2) []
  let reps := cmap.flatMap (fun cf =>
    if 1 < cf.2.length then
      let merged := "<!--[cond:" ++ cf.1 ++ "]-->" ++ String.join cf.2 ++ "<!--[endcond]-->"
      cf.2.map (fun f => ("<![if " ++ cf.1 ++ "]>" ++ f ++ "<!$$endif$$>", merged))
    else [])
  reps.foldl (fun c pr => c.replace pr.1 pr.2) content

/-! ## Concrete inputs used by the analysis -/

/-- A document with two comment-form and two downlevel-revealed conditional
fragments sharing the condition `mso`, split across the document. -/
def c2doc : String :=
  "<p><!--[if mso]-->A<!--[endif]--><![if mso]>B<![endif]><![if mso]>C<![endif]></p>"

/-- A paragraph whose inline `color` declares alpha `0.5`. -/
def c3node : Node := Node.elem "p" [("style", "color:rgba(10,20,30,0.5)")] [Node.text "x"]

/-- A single path whose leaf is an anchor hidden by `display:none`. -/
def c1doc : List (List Node) :=
  [[Node.elem "a" [("href", "http://x"), ("style", "display:none")] [Node.text "click"]]]

/-- A single path: one paragraph with direct text. -/
def c9doc : List (List Node) := [[Node.elem "p" [] [Node.text "hi"]]]

/-- The record `analyze_paths` emits for the hidden anchor of `c1doc`. -/
def c1record : ARecord :=
  { typ := .link, txt := "click", url := "http://x",
    style := [("color", .col opaqueBlack), ("background-color", .col opaqueWhite),
              ("font-size", .str "16px"), ("opacity", .num 1), ("display", .str "none")],
    visible := false, hiddenReasons := [Reason.displayNone] }

/-- The record `analyze_paths` emits for the paragraph of `c9doc`. -/
def c9record : ARecord :=
  { typ := .text, txt := "hi", url := "",
    style := [("color", .col opaqueBlack), ("background-color", .col opaqueWhite),
              ("font-size", .str "16px"), ("opacity", .num 1)],
    visible := true, hiddenReasons := [] }

/-! ## Style-map invariants -/

/-- The resolved style defines the four keys the classifier reads without a
guard. -/
def hasCoreKeys (st : StyleMap) : Prop :=
  (lookupStyle st "color").isSome ∧ (lookupStyle st "background-color").isSome ∧
  (lookupStyle st "font-size").isSome ∧ (lookupStyle st "opacity").isSome

instance (st : StyleMap) : Decidable (hasCoreKeys st) := by
  unfold hasCoreKeys; infer_instance

/-- `st` keeps every key of `inh` defined (values may change). -/
def Extends (inh st : StyleMap) : Prop :=
  ∀ j, (lookupStyle inh j).isSome → (lookupStyle st j).isSome

/-! ## Range invariants of the colour parser -/

/-- The claimed invariant: alpha within `[0,1]`, channels within `[0,255]`. -/
def InRange (c : Color) : Prop :=
  0 ≤ c.alpha ∧ c.alpha ≤ 1 ∧ 0 ≤ c.r ∧ c.r ≤ 255 ∧ 0 ≤ c.g ∧ c.g ≤ 255 ∧ 0 ≤ c.b ∧ c.b ≤ 255

instance (c : Color) : Decidable (InRange c) := by unfold InRange; infer_instance

/-- A `$` anchor position never carries the character `i`: the anchor only
holds at the very end of the input (no character at all) or on a final
newline. -/
theorem dollar_blocks_i (cs : List Char) (p : ℕ) (h : dollarOk cs p = true) :
    litAt cs p 'i' = false := by
  unfold dollarOk at h
  unfold litAt
  simp only [Bool.or_eq_true, Bool.and_eq_true, beq_iff_eq] at h
  rcases h with h | ⟨h1, h2⟩
  · rw [List.getElem?_eq_none (by omega)]
  · rw [h2]
    decide

/-- `SPLIT_CONDITIONAL_RE` cannot match at any position of any input. -/
theorem matchSplitAt_none (cs : List Char) (i : ℕ) : matchSplitAt cs i = none := by
  unfold matchSplitAt
  cases hd : dollarOk cs (i + 2) with
  | false => simp [hd]
  | true => simp [hd, dollar_blocks_i cs (i + 2) hd]

theorem findSplitAux_nil : ∀ fuel cs i, findSplitAux fuel cs i = []
  | 0, _, _ => rfl
  | fuel + 1, cs, i => by
    unfold findSplitAux
    rw [matchSplitAt_none]
    exact findSplitAux_nil fuel cs (i + 1)

theorem findSplitMatches_nil (s : String) : findSplitMatches s = [] :=
  findSplitAux_nil _ _ _

/-- The split-conditional normaliser is the identity on every input: its
regex never matches, so no replacements are ever generated. -/
theorem handleSplitText_id (s : String) : handleSplitText s = s := by
  unfold handleSplitText
  rw [findSplitMatches_nil]
  rfl


theorem lookup_mem {α : Type} [DecidableEq α] {β : Type} :
    ∀ (l : List (α × β)) (k : α) (v : β), l.lookup k = some v → (k, v) ∈ l
  | [], _, _, h => by simp [List.lookup] at h
  | (k1, v1) :: rest, k, v, h => by
    simp only [List.lookup] at h
    by_cases hk : k = k1
    · subst hk
      simp at h
      subst h
      exact List.mem_cons_self _ _
    · have hne : (k == k1) = false := by simp [hk]
      rw [hne] at h
      exact List.mem_cons_of_mem _ (lookup_mem rest k v h)

theorem hexVal_lt (c : Char) : hexVal c < 16 := by
  unfold hexVal
  split_ifs with h1 h2
  · have ha' : 48 ≤ c.toNat := by simpa [Char.toNat] using Char.le_def.mp h1.1
    have hb' : c.toNat ≤ 57 := by simpa [Char.toNat] using Char.le_def.mp h1.2
    omega
  · have ha' : 97 ≤ c.toNat := by simpa [Char.toNat] using Char.le_def.mp h2.1
    have hb' : c.toNat ≤ 102 := by simpa [Char.toNat] using Char.le_def.mp h2.2
    omega
  · omega

theorem hexSliceVal_le (cs : List Char) (h : cs.length ≤ 2) : hexSliceVal cs ≤ 255 := by
  match cs, h with
  | [], _ => simp [hexSliceVal]
  | [a], _ =>
    have := hexVal_lt a
    simp [hexSliceVal, List.foldl]
    omega
  | [a, b], _ =>
    have := hexVal_lt a
    have := hexVal_lt b
    simp [hexSliceVal, List.foldl]
    omega

theorem inRange_ofHexParts (A B C D : List Char)
    (hA : A.length ≤ 2) (hB : B.length ≤ 2) (hC : C.length ≤ 2) (hD : D.length ≤ 2) :
    InRange { r := (hexSliceVal A : ℚ), g := (hexSliceVal B : ℚ), b := (hexSliceVal C : ℚ),
              alpha := (hexSliceVal D : ℚ) / 255 } := by
  refine ⟨by positivity, ?_, by positivity, ?_, by positivity, ?_, by positivity, ?_⟩
  · show (hexSliceVal D : ℚ) / 255 ≤ 1
    rw [div_le_one (by norm_num)]
    exact_mod_cast hexSliceVal_le D hD
  · show (hexSliceVal A : ℚ) ≤ 255
    exact_mod_cast hexSliceVal_le A hA
  · show (hexSliceVal B : ℚ) ≤ 255
    exact_mod_cast hexSliceVal_le B hB
  · show (hexSliceVal C : ℚ) ≤ 255
    exact_mod_cast hexSliceVal_le C hC

theorem hexMatch_inRange (v : String) (c : Color) (h : hexMatch v = some c) : InRange c := by
  unfold hexMatch at h
  split at h
  · split at h
    · injection h with h
      subst h
      apply inRange_ofHexParts <;> simp [List.length_take]
    · exact absurd h (by simp)
  · exact absurd h (by simp)

theorem clampQ_lower (lo hi x : ℚ) : lo ≤ clampQ lo hi x := le_max_left _ _

theorem clampQ_upper (lo hi x : ℚ) (h : lo ≤ hi) : clampQ lo hi x ≤ hi :=
  max_le h (min_le_right _ _)

theorem parseColorTuple_inRange (xs : List ℚ) : InRange (parseColorTuple xs) := by
  unfold parseColorTuple
  split
  · exact ⟨clampQ_lower _ _ _, clampQ_upper _ _ _ (by norm_num),
      clampQ_lower _ _ _, clampQ_upper _ _ _ (by norm_num),
      clampQ_lower _ _ _, clampQ_upper _ _ _ (by norm_num),
      clampQ_lower _ _ _, clampQ_upper _ _ _ (by norm_num)⟩
  · exact ⟨clampQ_lower _ _ _, clampQ_upper _ _ _ (by norm_num),
      clampQ_lower _ _ _, clampQ_upper _ _ _ (by norm_num),
      clampQ_lower _ _ _, clampQ_upper _ _ _ (by norm_num),
      clampQ_lower _ _ _, clampQ_upper _ _ _ (by norm_num)⟩
  · with_unfolding_all decide

theorem namedTable_bounds : ∀ p ∈ namedColorTable,
    p.2.1 ≤ 255 ∧ p.2.2.1 ≤ 255 ∧ p.2.2.2 ≤ 255 := by decide

/-- Every colour a string input can produce outside the `rgb()`/`hsl()`
functional paths — `transparent`, hex, or a named lookup — is in range. -/
theorem parseColorString_noFun_inRange (s : String) (c : Color)
    (hrgb : rgbMatch (pyLower (pyStrip s)) = none)
    (hhsl : hslMatch (pyLower (pyStrip s)) = none)
    (h : parseColorString s = some c) : InRange c := by
  simp only [parseColorString] at h
  split_ifs at h with htr
  · injection h with h
    subst h
    with_unfolding_all decide
  · cases hh : hexMatch (pyLower (pyStrip s)) with
    | some ch =>
      rw [hh] at h
      injection h with h
      subst h
      exact hexMatch_inRange _ _ hh
    | none =>
      rw [hh, hrgb, hhsl] at h
      cases hn : namedLookup (pyLower (pyStrip s)) with
      | some rgb =>
        rw [hn] at h
        injection h with h
        subst h
        have hb := namedTable_bounds _ (lookup_mem _ _ _ hn)
        have hb1 : rgb.1 ≤ 255 := hb.1
        have hb2 : rgb.2.1 ≤ 255 := hb.2.1
        have hb3 : rgb.2.2 ≤ 255 := hb.2.2
        refine ⟨by norm_num, by norm_num, by positivity, ?_, by positivity, ?_,
          by positivity, ?_⟩
        · show (rgb.1 : ℚ) ≤ 255
          exact_mod_cast hb1
        · show (rgb.2.1 : ℚ) ≤ 255
          exact_mod_cast hb2
        · show (rgb.2.2 : ℚ) ≤ 255
          exact_mod_cast hb3
      | none =>
        rw [hn] at h
        cases h

/-! ## Claim theorems -/

/-- C7 (confirmed): compositing any foreground with alpha 0 over any
background returns fully transparent black. -/
theorem claim_C7_blend_transparent (fg bg : Color) (h : fg.alpha = 0) :
    blendColors fg bg = transparentBlack := by
  unfold blendColors
  rw [if_pos h]

/-- C7 witness: the theorem applied at a concrete pair. -/
theorem claim_C7_witness :
    blendColors ⟨12, 34, 56, 0⟩ ⟨200, 100, 50, 1⟩ = transparentBlack :=
  claim_C7_blend_transparent ⟨12, 34, 56, 0⟩ ⟨200, 100, 50, 1⟩ rfl

/-- C2 counterexample: a document with two comment-form fragments and two
downlevel-revealed fragments sharing the condition `mso` is passed through
the normaliser completely unchanged — no merged sentinel block
(`[cond:`/`[endcond]`) ever appears. -/
theorem claim_C2_counterexample :
    handleSplitText c2doc = c2doc ∧
    isSubstr "[cond:" (handleSplitText c2doc) = false ∧
    isSubstr "[endcond]" (handleSplitText c2doc) = false := by
  refine ⟨handleSplitText_id _, ?_, ?_⟩ <;> (rw [handleSplitText_id]; with_unfolding_all decide)

/-- C2 (corrected): the split-conditional regex is written with literal `$`
end anchors (`<!$$if…`) and can never match, so the normaliser returns every
input unchanged and no merging happens; moreover a `[cond:…]` sentinel
comment contributes records only when its parent is a
`div.conditional-container`, which the pipeline never creates — otherwise it
contributes nothing at all. -/
theorem claim_C2_split_merge_amended :
    (∀ content, handleSplitText content = content) ∧
    (∀ (s : String) (subs : List ARecord), pyStartsWith (pyStrip s) "[cond:" = true →
      processComment ⟨s, false, subs⟩ = []) := by
  constructor
  · exact handleSplitText_id
  · intro s subs h
    simp [processComment, h]

/-- C2 witness: the amended claim applied at concrete inputs. -/
theorem claim_C2_witness :
    handleSplitText "<b>x</b>" = "<b>x</b>" ∧
    processComment ⟨"[cond:mso]", false, []⟩ = [] :=
  ⟨claim_C2_split_merge_amended.1 "<b>x</b>",
   claim_C2_split_merge_amended.2 "[cond:mso]" [] (by with_unfolding_all decide)⟩

/-- C3 (code bug): the colour-alpha folding calls
`_parse_opacity(style['color']['alpha'], current_opacity)` with a float
first argument; `.strip()` raises and the bare `except` resets the factor to
1, so the declared alpha never reaches the accumulated opacity.  First
conjunct: the fold is independent of the alpha.  Second conjunct: at the
concrete failing input the resolved colour has alpha `0.5` while the
resolved opacity stays `1.00` (the claim expects `0.50`). -/
theorem claim_C3_alpha_not_folded :
    (∀ q p, parseOpacity (.ofFloat q) (.ofFloat p) = round2 p) ∧
    ((parseNodeStyle c3node DEFAULT_STYLE).toOption.map
      (fun st => (lookupStyle st "color", lookupStyle st "opacity"))
      = some (some (.col ⟨10, 20, 30, 1/2⟩), some (.num 1))) := by
  constructor
  · intro q p
    show round2 (((some p).getD 1) * 1) = round2 p
    rw [Option.getD_some, mul_one]
  · with_unfolding_all decide

/-- C4 counterexample: `rgba(300,0,0,5)` — syntactically valid for
`RGB_RE` — is passed through with channel 300 and alpha 5, violating both
claimed clamps. -/
theorem claim_C4_counterexample :
    parseColor (ColorInput.str "rgba(300,0,0,5)") Role.fg = ⟨300, 0, 0, 5⟩ ∧
    ¬ InRange (parseColor (ColorInput.str "rgba(300,0,0,5)") Role.fg) := by
  constructor <;> with_unfolding_all decide

/-- C4 (corrected): the clamping invariant holds for tuple/list inputs, for
the role defaults, and for every string input outside the `rgb()`/`hsl()`
functional forms (`transparent`, hex, named); `rgb()`/`rgba()`,
`hsl()`/`hsla()` and `{rgb, alpha}` mapping inputs are passed through
without clamping. -/
theorem claim_C4_color_range_amended :
    (∀ xs role, InRange (parseColor (.tup xs) role)) ∧
    (∀ xs role, InRange (parseColor (.lst xs) role)) ∧
    (∀ role, InRange (roleDefault role)) ∧
    (∀ s c, rgbMatch (pyLower (pyStrip s)) = none → hslMatch (pyLower (pyStrip s)) = none →
       parseColorString s = some c → InRange c) := by
  refine ⟨?_, ?_, ?_, ?_⟩
  · intro xs role
    exact parseColorTuple_inRange xs
  · intro xs role
    exact parseColorTuple_inRange xs
  · intro role
    cases role <;> with_unfolding_all decide
  · exact parseColorString_noFun_inRange

/-- C4 witness: the amended claim applied at concrete inputs, discharging
the no-functional-form hypotheses on a hex string. -/
theorem claim_C4_witness :
    InRange (parseColor (ColorInput.tup [300, -5, 80]) Role.fg) ∧
    InRange ⟨30, 144, 255, 1⟩ :=
  ⟨claim_C4_color_range_amended.1 [300, -5, 80] Role.fg,
   claim_C4_color_range_amended.2.2.2 "#1e90ff" ⟨30, 144, 255, 1⟩
     (by with_unfolding_all decide) (by with_unfolding_all decide)
     (by with_unfolding_all decide)⟩

/-- C5 counterexample: a 2-element tuple matches none of the accepted
forms, yet with the background role the parser returns opaque *black* (from
inside `_parse_color_tuple`), not the claimed role default white. -/
theorem claim_C5_counterexample :
    parseColor (ColorInput.tup [1, 2]) Role.bg = opaqueBlack ∧
    opaqueBlack ≠ roleDefault Role.bg := by
  constructor <;> with_unfolding_all decide

/-- C5 (corrected): a *string* matching no accepted form, and an input of
unexpected type, do fall back to the role default and never raise; but a
tuple/list of wrong arity, or a mapping missing `rgb`/`alpha`, returns
opaque black regardless of the role. -/
theorem claim_C5_default_amended :
    (∀ s role, pyLower (pyStrip s) ≠ "transparent" →
       hexMatch (pyLower (pyStrip s)) = none →
       rgbMatch (pyLower (pyStrip s)) = none →
       hslMatch (pyLower (pyStrip s)) = none →
       namedLookup (pyLower (pyStrip s)) = none →
       parseColor (.str s) role = roleDefault role) ∧
    (∀ role, parseColor .pyNone role = roleDefault role) ∧
    (∀ xs role, xs.length ≠ 3 → xs.length ≠ 4 → parseColor (.tup xs) role = opaqueBlack) ∧
    (∀ xs role, xs.length ≠ 3 → xs.length ≠ 4 → parseColor (.lst xs) role = opaqueBlack) ∧
    (∀ (rgb? : Option (ℚ × ℚ × ℚ)) role, parseColor (.dict rgb? none) role = opaqueBlack) ∧
    (∀ (a? : Option ℚ) role, parseColor (.dict none a?) role = opaqueBlack) := by
  refine ⟨?_, ?_, ?_, ?_, ?_, ?_⟩
  · intro s role h1 h2 h3 h4 h5
    show (parseColorString s).getD (roleDefault role) = roleDefault role
    have : parseColorString s = none := by
      simp only [parseColorString, if_neg h1, h2, h3, h4, h5]
    rw [this]
    rfl
  · intro role
    rfl
  · intro xs role h3 h4
    show parseColorTuple xs = opaqueBlack
    match xs, h3, h4 with
    | [], _, _ => rfl
    | [a], _, _ => rfl
    | [a, b], _, _ => rfl
    | [a, b, c], h3, _ => exact absurd rfl h3
    | [a, b, c, d], _, h4 => exact absurd rfl h4
    | a :: b :: c :: d :: e :: rest, _, _ => rfl
  · intro xs role h3 h4
    show parseColorTuple xs = opaqueBlack
    match xs, h3, h4 with
    | [], _, _ => rfl
    | [a], _, _ => rfl
    | [a, b], _, _ => rfl
    | [a, b, c], h3, _ => exact absurd rfl h3
    | [a, b, c, d], _, h4 => exact absurd rfl h4
    | a :: b :: c :: d :: e :: rest, _, _ => rfl
  · intro rgb? role
    cases rgb? <;> rfl
  · intro a? role
    rfl

/-- C5 witness: the amended claim applied at concrete inputs. -/
theorem claim_C5_witness :
    parseColor (ColorInput.str "no-such-color!") Role.bg = roleDefault Role.bg ∧
    parseColor (ColorInput.tup [1, 2, 3, 4, 5]) Role.bg = opaqueBlack :=
  ⟨claim_C5_default_amended.1 "no-such-color!" Role.bg
     (by with_unfolding_all decide) (by with_unfolding_all decide)
     (by with_unfolding_all decide) (by with_unfolding_all decide)
     (by with_unfolding_all decide),
   claim_C5_default_amended.2.2.2.1 [1, 2, 3, 4, 5] Role.bg
     (by decide) (by decide)⟩

mutual
theorem prune_idem : ∀ t : Node, prune (prune t) = prune t
  | .elem nm a cs => by
    simp only [prune]
    rw [pruneKept_idem cs]
  | .text _ => rfl
  | .comment _ => rfl

theorem pruneKept_idem : ∀ cs : List Node, pruneKept (pruneKept cs) = pruneKept cs
  | [] => rfl
  | c :: cs => by
    simp only [pruneKept]
    by_cases h : isEmptyNow (prune c) = true
    · rw [if_pos h]
      exact pruneKept_idem cs
    · rw [if_neg h]
      simp only [pruneKept]
      rw [prune_idem c, if_neg h, pruneKept_idem cs]
end

/-- C8 (confirmed): the empty-node prune is idempotent — re-running it on an
already-pruned tree removes nothing and returns the tree unchanged. -/
theorem claim_C8_prune_idempotent : ∀ t : Node, prune (prune t) = prune t :=
  fun t => prune_idem t


theorem takeWhile_all {p : Char → Bool} : ∀ l : List Char, (∀ c ∈ l, p c = true) →
    l.takeWhile p = l
  | [], _ => rfl
  | c :: cs, h => by
    simp [List.takeWhile_cons, h c (List.mem_cons_self _ _),
      takeWhile_all cs (fun x hx => h x (List.mem_cons_of_mem _ hx))]

theorem dropWhile_all_false {p : Char → Bool} : ∀ l : List Char, (∀ c ∈ l, p c = false) →
    l.dropWhile p = l
  | [], _ => rfl
  | c :: cs, h => by
    rw [List.dropWhile_cons]
    simp [h c (List.mem_cons_self _ _)]

theorem charStrip_id (l : List Char) (h : ∀ c ∈ l, c.isWhitespace = false) :
    charStrip l = l := by
  unfold charStrip
  rw [dropWhile_all_false l h]
  rw [dropWhile_all_false l.reverse (fun c hc => h c (List.mem_reverse.mp hc))]
  exact List.reverse_reverse l

theorem digit_toNat (c : Char) (h : c.isDigit = true) : 48 ≤ c.toNat ∧ c.toNat ≤ 57 := by
  simp only [Char.isDigit, decide_eq_true_eq, Bool.and_eq_true] at h
  constructor
  · simpa [Char.toNat] using h.1
  · simpa [Char.toNat] using h.2

theorem digit_not_ws (c : Char) (h : c.isDigit = true) : c.isWhitespace = false := by
  obtain ⟨h1, h2⟩ := digit_toNat c h
  by_contra hw
  simp only [Bool.not_eq_false] at hw
  simp only [Char.isWhitespace, Bool.or_eq_true, decide_eq_true_eq] at hw
  rcases hw with ((hc | hc) | hc) | hc <;> subst hc <;> revert h1 h2 <;> decide

theorem digit_ne_of_toNat (c : Char) (d : Char) (h : c.isDigit = true)
    (hd : d.toNat < 48 ∨ 57 < d.toNat) : c ≠ d := by
  obtain ⟨h1, h2⟩ := digit_toNat c h
  intro he
  subst he
  omega

theorem digitsValQ_nonneg_aux : ∀ (cs : List Char) (a : ℚ), 0 ≤ a →
    0 ≤ cs.foldl (fun a c => 10 * a + ((c.toNat - 48 : ℕ) : ℚ)) a
  | [], a, ha => ha
  | c :: cs, a, ha => by
    rw [List.foldl_cons]
    exact digitsValQ_nonneg_aux cs _
      (add_nonneg (by linarith) (by positivity))

theorem digitsValQ_nonneg (cs : List Char) : 0 ≤ digitsValQ cs :=
  digitsValQ_nonneg_aux cs 0 le_rfl

/-- Python float accepts a non-empty all-digit token. -/
theorem pyFloat_digits (cs : List Char) (h1 : cs ≠ []) (h2 : ∀ c ∈ cs, c.isDigit = true) :
    pyFloat ⟨cs⟩ = some (digitsValQ cs) := by
  have hWs : ∀ c ∈ cs, c.isWhitespace = false := fun c hc => digit_not_ws c (h2 c hc)
  have hstrip : charStrip cs = cs := charStrip_id cs hWs
  have hhead : ∀ d : Char, d.toNat < 48 ∨ 57 < d.toNat → (cs.head? = some d) = False := by
    intro d hd
    apply eq_false
    intro he
    match cs, he with
    | c :: t, he =>
      have hcd : c = d := by simpa using he
      exact digit_ne_of_toNat c d (h2 c (List.mem_cons_self _ _)) hd hcd
  have htake : cs.takeWhile Char.isDigit = cs := takeWhile_all cs h2
  have hemp : cs.isEmpty = false := by simpa [List.isEmpty_iff] using h1
  simp only [pyFloat, show (String.mk cs).data = cs from rfl, hstrip,
    hhead '-' (by decide), hhead '+' (by decide), htake, List.drop_length,
    List.head?_nil, if_false, or_self, List.isEmpty_nil, hemp,
    reduceCtorEq, false_and, List.append_nil, List.length_nil, pow_zero, div_one, one_mul,
    if_true]

theorem takeWhile_append_stop {p : Char → Bool} :
    ∀ (A : List Char) (x : Char) (B : List Char), (∀ c ∈ A, p c = true) → p x = false →
      (A ++ x :: B).takeWhile p = A
  | [], x, B, _, hx => by simp [List.takeWhile_cons, hx]
  | a :: A, x, B, hA, hx => by
    simp [List.takeWhile_cons, hA a (List.mem_cons_self _ _),
      takeWhile_append_stop A x B (fun c hc => hA c (List.mem_cons_of_mem _ hc)) hx]

theorem pyFloat_digitsDot (A B : List Char) (hA : A ≠ [])
    (h2 : ∀ c ∈ A, c.isDigit = true) (h3 : ∀ c ∈ B, c.isDigit = true) :
    pyFloat ⟨A ++ '.' :: B⟩ = some (digitsValQ (A ++ B) / 10 ^ B.length) := by
  have hWs : ∀ c ∈ A ++ '.' :: B, c.isWhitespace = false := by
    intro c hc
    rcases List.mem_append.mp hc with hc | hc
    · exact digit_not_ws c (h2 c hc)
    · rcases List.mem_cons.mp hc with hc | hc
      · subst hc; decide
      · exact digit_not_ws c (h3 c hc)
  have hstrip : charStrip (A ++ '.' :: B) = A ++ '.' :: B := charStrip_id _ hWs
  have hhead : ∀ d : Char, d.toNat < 48 ∨ 57 < d.toNat →
      ((A ++ '.' :: B).head? = some d) = False := by
    intro d hd
    apply eq_false
    intro he
    match A, hA, he with
    | a :: A, _, he =>
      have had : a = d := by simpa using he
      exact digit_ne_of_toNat a d (h2 a (List.mem_cons_self _ _)) hd had
  have htake : (A ++ '.' :: B).takeWhile Char.isDigit = A :=
    takeWhile_append_stop A '.' B h2 (by decide)
  have htakeB : B.takeWhile Char.isDigit = B := takeWhile_all B h3
  have hempA : A.isEmpty = false := by simpa [List.isEmpty_iff] using hA
  simp only [pyFloat, show (String.mk (A ++ '.' :: B)).data = A ++ '.' :: B from rfl, hstrip,
    hhead '-' (by decide), hhead '+' (by decide), or_self, if_false, htake, List.drop_left,
    List.head?_cons, Option.some.injEq, if_true, htakeB, List.tail_cons, List.drop_length,
    hempA, false_and, List.isEmpty_nil, one_mul, reduceIte]
  simp

theorem natDigitsAux_digits : ∀ fuel n, ∀ c ∈ natDigitsAux fuel n, c.isDigit = true
  | 0, n => by simp [natDigitsAux]
  | fuel + 1, n => by
    intro c hc
    unfold natDigitsAux at hc
    split at hc
    · next hn =>
      simp only [List.mem_singleton] at hc
      subst hc
      interval_cases n <;> decide
    · rcases List.mem_append.mp hc with hc | hc
      · exact natDigitsAux_digits fuel (n / 10) c hc
      · simp only [List.mem_singleton] at hc
        subst hc
        have hm : n % 10 < 10 := Nat.mod_lt _ (by norm_num)
        set m := n % 10 with hmdef
        interval_cases m <;> decide

theorem natDigitsAux_ne_nil (fuel n : ℕ) : natDigitsAux (fuel + 1) n ≠ [] := by
  unfold natDigitsAux
  split
  · simp
  · simp

theorem natStr_digits (n : ℕ) : (natStr n).data ≠ [] ∧ ∀ c ∈ (natStr n).data, c.isDigit = true :=
  ⟨natDigitsAux_ne_nil n n, natDigitsAux_digits (n + 1) n⟩

theorem pyRound_nonneg (q : ℚ) (h : 0 ≤ q) : 0 ≤ pyRound q := by
  unfold pyRound
  have hf : (0 : ℤ) ≤ Int.floor q := Int.floor_nonneg.mpr h
  simp only []
  split_ifs <;> omega

theorem takeWhile_append_all {p : Char → Bool} :
    ∀ (A B : List Char), (∀ c ∈ A, p c = true) → (∀ c, B.head? = some c → p c = false) →
      (A ++ B).takeWhile p = A ∧ (A ++ B).dropWhile p = B
  | [], B, _, hB => by
    match B with
    | [] => exact ⟨rfl, rfl⟩
    | c :: t =>
      have := hB c rfl
      simp [List.takeWhile_cons, List.dropWhile_cons, this]
  | a :: A, B, hA, hB => by
    have ih := takeWhile_append_all A B (fun c hc => hA c (List.mem_cons_of_mem _ hc)) hB
    simp [List.takeWhile_cons, List.dropWhile_cons, hA a (List.mem_cons_self _ _), ih.1, ih.2]

/-- The decimal formatter produces `digits '.' digits`. -/
theorem formatQ_shape (q : ℚ) (h : 0 ≤ q) :
    ∃ I F : List Char, (formatQ q).data = I ++ '.' :: F ∧ I ≠ [] ∧ F ≠ [] ∧
      (∀ c ∈ I, c.isDigit = true) ∧ (∀ c ∈ F, c.isDigit = true) := by
  unfold formatQ
  simp only []
  set k := max (countFactor 2 q.den q.den) (countFactor 5 q.den q.den) with hk
  set scaled : ℤ := q.num * ((10 : ℤ) ^ k) / (q.den : ℤ) with hscaled
  set intPart : ℤ := scaled / (10 : ℤ) ^ k with hip
  have hsc : 0 ≤ scaled := by
    apply Int.ediv_nonneg
    · exact mul_nonneg (Rat.num_nonneg.mpr h) (by positivity)
    · exact_mod_cast Nat.zero_le q.den
  have hipn : 0 ≤ intPart := Int.ediv_nonneg hsc (by positivity)
  set fracDigits : List Char :=
    (List.range k).reverse.map (fun i => Char.ofNat (48 + ((scaled.natAbs / 10 ^ i) % 10)))
    with hfd
  have hfdDigits : ∀ c ∈ fracDigits, c.isDigit = true := by
    intro c hc
    rw [hfd] at hc
    rcases List.mem_map.mp hc with ⟨i, _, hci⟩
    subst hci
    have hm : (scaled.natAbs / 10 ^ i) % 10 < 10 := Nat.mod_lt _ (by norm_num)
    set m := (scaled.natAbs / 10 ^ i) % 10 with hmm
    interval_cases m <;> decide
  set trimmed := (fracDigits.reverse.dropWhile (fun c => c = '0')).reverse with htr
  have htrimmedDigits : ∀ c ∈ trimmed, c.isDigit = true := by
    intro c hc
    rw [htr] at hc
    apply hfdDigits
    have h1 := List.mem_reverse.mp hc
    have h2 := (List.dropWhile_sublist _).mem h1
    exact List.mem_reverse.mp h2
  refine ⟨(intStr intPart).data, if trimmed.isEmpty then ['0'] else trimmed, ?_, ?_, ?_, ?_, ?_⟩
  · simp only [String.data_append]
    simp [List.append_assoc]
  · rw [intStr, if_neg (by omega)]
    exact (natStr_digits intPart.natAbs).1
  · split
    · simp
    · next hne =>
      simpa [List.isEmpty_iff] using hne
  · rw [intStr, if_neg (by omega)]
    exact (natStr_digits intPart.natAbs).2
  · intro c hc
    split at hc
    · simp only [List.mem_singleton] at hc
      subst hc
      decide
    · exact htrimmedDigits c hc

theorem numTok_head_facts (tok : List Char) (htok : tok ≠ [])
    (hdig : ∀ c ∈ tok, c.isDigit = true ∨ c = '.') :
    ∀ d : Char, (d.toNat < 46 ∨ 57 < d.toNat ∨ d.toNat = 47) → (tok.head? = some d) = False := by
  intro d hd
  apply eq_false
  intro he
  match tok, he with
  | c :: t, he =>
    have hcd : c = d := by simpa using he
    subst hcd
    rcases hdig c (List.mem_cons_self _ _) with h | h
    · obtain ⟨hl, hr⟩ := digit_toNat c h
      omega
    · subst h
      revert hd
      decide

theorem one_mul_div_pow_nonneg (x : ℚ) (n : ℕ) (hx : 0 ≤ x) :
    0 ≤ (1 : ℚ) * (x / 10 ^ n) := by positivity

theorem one_mul_div_pow_zpow_nonneg (x : ℚ) (n : ℕ) (z : ℤ) (hx : 0 ≤ x) :
    0 ≤ (1 : ℚ) * (x / 10 ^ n) * 10 ^ z := by positivity

set_option maxHeartbeats 1000000 in
/-- A float parsed from a pure digit/dot token is non-negative. -/
theorem pyFloat_nonneg_digitDot (cs : List Char) (q : ℚ)
    (hdig : ∀ c ∈ cs, c.isDigit = true ∨ c = '.')
    (h : pyFloat ⟨cs⟩ = some q) : 0 ≤ q := by
  have hWs : ∀ c ∈ cs, c.isWhitespace = false := by
    intro c hc
    rcases hdig c hc with hh | hh
    · exact digit_not_ws c hh
    · subst hh; decide
  have hstrip : charStrip cs = cs := charStrip_id cs hWs
  have hhead : ∀ d : Char, (d.toNat < 46 ∨ 57 < d.toNat ∨ d.toNat = 47) →
      (cs.head? = some d) = False := by
    intro d hd
    match cs with
    | [] => simp
    | c :: t => exact numTok_head_facts (c :: t) (by simp) hdig d hd
  simp only [pyFloat, show (String.mk cs).data = cs from rfl, hstrip,
    hhead '-' (by decide), hhead '+' (by decide), or_self, if_false] at h
  revert h
  generalize List.takeWhile Char.isDigit cs = A
  generalize List.drop A.length cs = C1
  generalize List.takeWhile Char.isDigit C1.tail = B
  generalize List.drop B.length C1.tail = C2
  intro h
  split_ifs at h
  all_goals (injection h with h; subst h)
  all_goals
    first
      | exact one_mul_div_pow_nonneg _ _ (digitsValQ_nonneg _)
      | exact one_mul_div_pow_zpow_nonneg _ _ _ (digitsValQ_nonneg _)

/-- The length parser succeeds on `token ++ unit` strings whose token is a
parseable digit/dot literal. -/
theorem parseLength_ok (out : String) (tok rest : List Char) (q : ℚ)
    (hdata : out.data = tok ++ rest)
    (htok : tok ≠ [])
    (hdig : ∀ c ∈ tok, c.isDigit = true ∨ c = '.')
    (hstop : ∀ c, rest.head? = some c → (c.isDigit || c = '.') = false)
    (hq : pyFloat ⟨tok⟩ = some q) :
    ∃ v, parseLength (.str out) 16 = Except.ok (some v) := by
  have hhead : ∀ d : Char, (d.toNat < 46 ∨ 57 < d.toNat ∨ d.toNat = 47) →
      ((tok ++ rest).head? = some d) = False := by
    intro d hd
    apply eq_false
    intro he
    match tok, htok, he with
    | c :: t, _, he =>
      have hcd : c = d := by simpa using he
      have := (numTok_head_facts (c :: t) (by simp) hdig d hd)
      simp [hcd] at this
  have htk : (tok ++ rest).takeWhile (fun c => decide (c.isDigit = true ∨ c = '.')) = tok ∧
      (tok ++ rest).dropWhile (fun c => decide (c.isDigit = true ∨ c = '.')) = rest := by
    apply takeWhile_append_all
    · intro c hc
      simpa using hdig c hc
    · intro c hc
      have := hstop c hc
      simp only [Bool.or_eq_false_iff] at this
      simp [this.1, this.2]
  have hemp : tok.isEmpty = false := by simpa [List.isEmpty_iff] using htok
  have hlm : ∃ u, lengthMatch out = some ("" ++ String.mk tok, u) := by
    refine ⟨(match rest with
      | 'p' :: 'x' :: _ => some "px"
      | 'p' :: 't' :: _ => some "pt"
      | 'e' :: 'm' :: _ => some "em"
      | 'r' :: 'e' :: 'm' :: _ => some "rem"
      | '%' :: _ => some "%"
      | _ => none), ?_⟩
    simp only [lengthMatch, hdata, takeNumTok, hhead '-' (by decide), hhead '+' (by decide),
      or_self, if_false, htk.1, htk.2, hemp, reduceIte]
    simp
  obtain ⟨u, hu⟩ := hlm
  have hnum : pyFloat ("" ++ String.mk tok) = some q := hq
  refine ⟨if u = some "pt" then q * (1333 / 1000)
    else if u = some "em" then q * 16
    else if u = some "rem" then q * 16
    else if u = some "%" then q / 100 * 16 else q, ?_⟩
  simp only [parseLength, pyStrVal, hu, hnum]

/-- Shape facts about a successful modern font-size match. -/
theorem fontSizeModernMatch_spec (v : String) (tok : List Char) (unit : String)
    (h : fontSizeModernMatch v = some (tok, unit)) :
    tok ≠ [] ∧ (∀ c ∈ tok, c.isDigit = true ∨ c = '.') ∧
      (unit = "px" ∨ unit = "pt" ∨ unit = "em" ∨ unit = "%") := by
  unfold fontSizeModernMatch takeNumTok at h
  dsimp only at h
  split_ifs at h with he
  have htokdef : tok = v.data.takeWhile (fun c => decide (c.isDigit = true ∨ c = '.')) ∧
      (unit = "px" ∨ unit = "pt" ∨ unit = "em" ∨ unit = "%") := by
    split at h <;> first
      | exact Option.noConfusion h
      | (injection h with h; injection h with h1 h2; subst h1; subst h2; simp)
  obtain ⟨ht, hu⟩ := htokdef
  refine ⟨?_, ?_, hu⟩
  · rw [ht]
    intro hnil
    rw [hnil] at he
    exact he rfl
  · intro c hc
    rw [ht] at hc
    simpa using List.mem_takeWhile_imp hc

/-- C10 counterexample: the inline value `1..px` matches the modern-unit
regex, but `float("1..")` raises, and the exception propagates out of the
normaliser (and out of style resolution), so the normaliser does not return
any string at all. -/
theorem claim_C10_counterexample : parseFontSize "1..px" = Except.error () := by
  with_unfolding_all rfl

/-- C10 (corrected): whenever the normaliser *returns*, its result is of the
`…px` / `…em` / `…%` form (`pt` is converted to `px`, unmatched values
default to `16px`) and the length parser succeeds on it with a number, so
the classifier's 3px comparison is total on resolved styles; but the
normaliser can instead raise (see the counterexample), so it is not total on
every input. -/
theorem claim_C10_font_size_amended :
    ∀ s out, parseFontSize s = Except.ok out →
      ((∃ pre, out = pre ++ "px") ∨ (∃ pre, out = pre ++ "em") ∨ (∃ pre, out = pre ++ "%")) ∧
      ∃ v, parseLength (Val.str out) 16 = Except.ok (some v) := by
  intro s out h
  unfold parseFontSize at h
  dsimp only at h
  split_ifs at h with htrad
  · injection h with h
    subst h
    refine ⟨Or.inl ⟨_, rfl⟩, ?_⟩
    obtain ⟨hne, hdg⟩ := natStr_digits (fontSizeTable (digitsToNat (pyLower (pyStrip s)).data))
    exact parseLength_ok _ _ ['p', 'x'] _ (by simp [String.data_append]) hne
      (fun c hc => Or.inl (hdg c hc))
      (by intro c hc; simp at hc; subst hc; decide)
      (pyFloat_digits _ hne hdg)
  · cases hm : fontSizeModernMatch (pyLower (pyStrip s)) with
    | none =>
      rw [hm] at h
      injection h with h
      subst h
      exact ⟨Or.inl ⟨"16", by decide⟩, 16, by with_unfolding_all rfl⟩
    | some tu =>
      obtain ⟨tok0, unit⟩ := tu
      rw [hm] at h
      dsimp only at h
      obtain ⟨htne, htdig, hunit⟩ := fontSizeModernMatch_spec _ _ _ hm
      cases hf : pyFloat (String.mk tok0) with
      | none => rw [hf] at h; exact Except.noConfusion h
      | some num =>
        rw [hf] at h
        have hnum : 0 ≤ num := pyFloat_nonneg_digitDot tok0 num htdig hf
        split_ifs at h with hpt
        · injection h with h
          subst h
          have hr : (0 : ℤ) ≤ pyRound (num * (1333 / 1000)) := pyRound_nonneg _ (by positivity)
          refine ⟨Or.inl ⟨_, rfl⟩, ?_⟩
          have hint : intStr (pyRound (num * (1333 / 1000))) =
              natStr (pyRound (num * (1333 / 1000))).natAbs := by
            rw [intStr, if_neg (by omega)]
          obtain ⟨hne, hdg⟩ := natStr_digits (pyRound (num * (1333 / 1000))).natAbs
          refine parseLength_ok _ ((natStr (pyRound (num * (1333 / 1000))).natAbs).data)
            ['p', 'x'] _ ?_ hne (fun c hc => Or.inl (hdg c hc))
            (by intro c hc; simp at hc; subst hc; decide)
            (pyFloat_digits _ hne hdg)
          rw [hint]
          simp [String.data_append]
        · injection h with h
          subst h
          obtain ⟨I, F, hdata, hIne, hFne, hIdig, hFdig⟩ := formatQ_shape num hnum
          have hq := pyFloat_digitsDot I F hIne hIdig hFdig
          have hdigIF : ∀ c ∈ I ++ '.' :: F, c.isDigit = true ∨ c = '.' := by
            intro c hc
            rcases List.mem_append.mp hc with hc | hc
            · exact Or.inl (hIdig c hc)
            · rcases List.mem_cons.mp hc with hc | hc
              · exact Or.inr hc
              · exact Or.inl (hFdig c hc)
          rcases hunit with hu | hu | hu | hu
          · subst hu
            refine ⟨Or.inl ⟨_, rfl⟩, ?_⟩
            exact parseLength_ok _ (I ++ '.' :: F) ['p', 'x'] _
              (by simp [String.data_append, hdata]) (by simp) hdigIF
              (by intro c hc; simp at hc; subst hc; decide) hq
          · exact absurd hu hpt
          · subst hu
            refine ⟨Or.inr (Or.inl ⟨_, rfl⟩), ?_⟩
            exact parseLength_ok _ (I ++ '.' :: F) ['e', 'm'] _
              (by simp [String.data_append, hdata]) (by simp) hdigIF
              (by intro c hc; simp at hc; subst hc; decide) hq
          · subst hu
            refine ⟨Or.inr (Or.inr ⟨_, rfl⟩), ?_⟩
            exact parseLength_ok _ (I ++ '.' :: F) ['%'] _
              (by simp [String.data_append, hdata]) (by simp) hdigIF
              (by intro c hc; simp at hc; subst hc; decide) hq

/-- C10 witness: the amended claim applied at the concrete input `2pt`. -/
theorem claim_C10_witness :
    ((∃ pre, "3px" = pre ++ "px") ∨ (∃ pre, "3px" = pre ++ "em") ∨ (∃ pre, "3px" = pre ++ "%")) ∧
    ∃ v, parseLength (Val.str "3px") 16 = Except.ok (some v) :=
  claim_C10_font_size_amended "2pt" "3px" (by with_unfolding_all rfl)


theorem mem_ite_singleton {c : Prop} [Decidable c] (a b : Reason) :
    a ∈ (if c then [b] else []) ↔ (c ∧ a = b) := by
  split <;> simp_all

theorem mem_contrast_reasons {c1 c2 : Prop} [Decidable c1] [Decidable c2] (a b1 b2 : Reason) :
    a ∈ (if c1 then [b1] else if c2 then [b2] else []) ↔
      ((c1 ∧ a = b1) ∨ (¬c1 ∧ c2 ∧ a = b2)) := by
  split_ifs <;> simp_all

/-- C6 (confirmed): whenever the classifier returns, the `same_color` reason
is in the reason list exactly when the resolved foreground equals the
effective background (`finalBg` composites the resolved background over the
default opaque-white backdrop, exactly as the code does), and a
`low_contrast` reason is present exactly when they differ and the contrast
of that pair is below 1.05 — and then its payload is precisely the computed
contrast value.  Stated for an arbitrary contrast function, since
`_calculate_contrast` is floating-point (gamma 2.4). -/
theorem claim_C6_contrast_check (contr : Color → Color → ℚ) (style : StyleMap)
    (v : Bool) (rs : List Reason) (h : checkVisibility contr style = .ok (v, rs)) :
    ∃ ffg, finalFgE style = .ok ffg ∧
      (Reason.sameColor ∈ rs ↔ ffg = finalBg style) ∧
      (∀ c, Reason.lowContrast c ∈ rs ↔
        (c = contr ffg (finalBg style) ∧ ffg ≠ finalBg style ∧
         contr ffg (finalBg style) < 21/20)) := by
  cases hop : styleOpacityFloat style with
  | error e =>
    simp only [checkVisibility, bind, Except.bind, hop] at h
    exact Except.noConfusion h
  | ok op =>
  cases hfg : finalFgE style with
  | error e =>
    simp only [checkVisibility, bind, Except.bind, hop, hfg] at h
    exact Except.noConfusion h
  | ok ffg =>
  cases hoff : checkPositionOffset style with
  | error e =>
    simp only [checkVisibility, bind, Except.bind, hop, hfg, hoff] at h
    exact Except.noConfusion h
  | ok off =>
  cases hclip : checkClipping style with
  | error e =>
    simp only [checkVisibility, bind, Except.bind, hop, hfg, hoff, hclip] at h
    exact Except.noConfusion h
  | ok clip =>
  cases hfs : parseLength ((lookupStyle style "font-size").getD (.str "16px")) 16 with
  | error e =>
    simp only [checkVisibility, bind, Except.bind, hop, hfg, hoff, hclip, hfs] at h
    exact Except.noConfusion h
  | ok fs? =>
  cases hfil : checkFilterE style with
  | error e =>
    cases fs? with
    | none =>
      simp only [checkVisibility, bind, Except.bind, hop, hfg, hoff, hclip, hfs] at h
      exact Except.noConfusion h
    | some fs =>
      simp only [checkVisibility, bind, Except.bind, hop, hfg, hoff, hclip, hfs, hfil] at h
      exact Except.noConfusion h
  | ok filt =>
  cases fs? with
  | none =>
    simp only [checkVisibility, bind, Except.bind, hop, hfg, hoff, hclip, hfs] at h
    exact Except.noConfusion h
  | some fs =>
    simp only [checkVisibility, bind, Except.bind, hop, hfg, hoff, hclip, hfs, hfil] at h
    injection h with h
    injection h with hv hrs
    subst hrs
    refine ⟨ffg, rfl, ?_, ?_⟩
    · simp only [List.mem_append, mem_ite_singleton, mem_contrast_reasons]
      simp
    · intro c
      simp only [List.mem_append, mem_ite_singleton, mem_contrast_reasons]
      simp [Reason.lowContrast.injEq]
      tauto

/-- C6 witness: the theorem applied to the default style with the constant
contrast function 21. -/
theorem claim_C6_witness :
    ∃ ffg, finalFgE DEFAULT_STYLE = Except.ok ffg ∧
      (Reason.sameColor ∈ ([] : List Reason) ↔ ffg = finalBg DEFAULT_STYLE) ∧
      (∀ c, Reason.lowContrast c ∈ ([] : List Reason) ↔
        (c = (fun _ _ => (21 : ℚ)) ffg (finalBg DEFAULT_STYLE) ∧ ffg ≠ finalBg DEFAULT_STYLE ∧
         (fun _ _ => (21 : ℚ)) ffg (finalBg DEFAULT_STYLE) < 21/20)) :=
  claim_C6_contrast_check (fun _ _ => (21 : ℚ)) DEFAULT_STYLE true []
    (by with_unfolding_all rfl)

theorem Extends.refl (st : StyleMap) : Extends st st := fun _ h => h

theorem Extends.trans {a b c : StyleMap} (h1 : Extends a b) (h2 : Extends b c) :
    Extends a c := fun j h => h2 j (h1 j h)

theorem lookup_setStyle_eq : ∀ (st : StyleMap) (k : String) (v : Val),
    lookupStyle (setStyle st k v) k = some v
  | [], k, v => by simp [setStyle, lookupStyle, List.lookup]
  | kv :: rest, k, v => by
    by_cases hk : kv.1 = k
    · simp [setStyle, hk, lookupStyle, List.lookup]
    · simp only [setStyle, hk, if_false, lookupStyle, List.lookup]
      have : (k == kv.1) = false := by
        simp [Ne.symm hk]
      rw [this]
      exact lookup_setStyle_eq rest k v

theorem lookup_setStyle_ne : ∀ (st : StyleMap) (k : String) (v : Val) (j : String), j ≠ k →
    lookupStyle (setStyle st k v) j = lookupStyle st j
  | [], k, v, j, hj => by
    simp only [setStyle, lookupStyle, List.lookup]
    rw [show (j == k) = false by simp [hj]]
  | kv :: rest, k, v, j, hj => by
    by_cases hk : kv.1 = k
    · subst hk
      simp only [setStyle, if_pos rfl, lookupStyle, List.lookup]
      rw [show (j == kv.1) = false by simp [hj]]
    · simp only [setStyle, hk, if_false, lookupStyle, List.lookup]
      by_cases hjk : j = kv.1
      · simp [hjk]
      · rw [show (j == kv.1) = false by simp [hjk]]
        exact lookup_setStyle_ne rest k v j hj

theorem extends_setStyle (st : StyleMap) (k : String) (v : Val) :
    Extends st (setStyle st k v) := by
  intro j hj
  by_cases hjk : j = k
  · subst hjk
    rw [lookup_setStyle_eq]
    rfl
  · rw [lookup_setStyle_ne st k v j hjk]
    exact hj

theorem applyInlineProp_extends (acc acc2 : StyleMap × ℚ) (p : String × String)
    (h : applyInlineProp acc p = .ok acc2) : Extends acc.1 acc2.1 := by
  unfold applyInlineProp at h
  dsimp only at h
  simp only [pure, Except.pure] at h
  split_ifs at h with h1 h2 h3 h4
  · injection h with h
    subst h
    exact extends_setStyle _ _ _
  · injection h with h
    subst h
    exact extends_setStyle _ _ _
  · simp only [bind, Except.bind] at h
    cases hfs : parseFontSize p.2 with
    | error e => rw [hfs] at h; exact Except.noConfusion h
    | ok fs =>
      rw [hfs] at h
      injection h with h
      subst h
      exact extends_setStyle _ _ _
  · injection h with h
    subst h
    exact Extends.refl _
  · injection h with h
    subst h
    exact extends_setStyle _ _ _

theorem foldlM_applyInline_extends : ∀ (props : List (String × String)) (acc res : StyleMap × ℚ),
    List.foldlM applyInlineProp acc props = .ok res → Extends acc.1 res.1
  | [], acc, res, h => by
    simp only [List.foldlM_nil, pure, Except.pure] at h
    injection h with h
    subst h
    exact Extends.refl _
  | p :: ps, acc, res, h => by
    rw [List.foldlM_cons] at h
    simp only [bind, Except.bind] at h
    cases hstep : applyInlineProp acc p with
    | error e => rw [hstep] at h; exact Except.noConfusion h
    | ok acc2 =>
      rw [hstep] at h
      exact (applyInlineProp_extends acc acc2 p hstep).trans
        (foldlM_applyInline_extends ps acc2 res h)

theorem lookupStyle_filter_mem : ∀ (st : StyleMap) (k : String), k ∈ INHERITABLE_PROPS →
    lookupStyle (st.filter (fun kv => kv.1 ∈ INHERITABLE_PROPS)) k = lookupStyle st k
  | [], _, _ => rfl
  | kv :: rest, k, hk => by
    simp only [List.filter]
    by_cases hp : kv.1 ∈ INHERITABLE_PROPS
    · rw [show (decide (kv.1 ∈ INHERITABLE_PROPS)) = true by simp [hp]]
      simp only [lookupStyle, List.lookup]
      by_cases hke : k = kv.1
      · rw [show (k == kv.1) = true by simp [hke]]
      · rw [show (k == kv.1) = false by simp [hke]]
        exact lookupStyle_filter_mem rest k hk
    · rw [show (decide (kv.1 ∈ INHERITABLE_PROPS)) = false by simp [hp]]
      have hke : k ≠ kv.1 := fun he => hp (he ▸ hk)
      simp only [lookupStyle, List.lookup]
      rw [show (k == kv.1) = false by simp [hke]]
      exact lookupStyle_filter_mem rest k hk

theorem hasCoreKeys_of_extends {inh st : StyleMap} (he : Extends inh st)
    (h : hasCoreKeys inh) : hasCoreKeys st :=
  ⟨he _ h.1, he _ h.2.1, he _ h.2.2.1, he _ h.2.2.2⟩

theorem hasCoreKeys_filter (st : StyleMap) (h : hasCoreKeys st) :
    hasCoreKeys (st.filter (fun kv => kv.1 ∈ INHERITABLE_PROPS)) := by
  obtain ⟨h1, h2, h3, h4⟩ := h
  refine ⟨?_, ?_, ?_, ?_⟩
  · rw [lookupStyle_filter_mem _ _ (by simp [INHERITABLE_PROPS])]; exact h1
  · rw [lookupStyle_filter_mem _ _ (by simp [INHERITABLE_PROPS])]; exact h2
  · rw [lookupStyle_filter_mem _ _ (by simp [INHERITABLE_PROPS])]; exact h3
  · rw [lookupStyle_filter_mem _ _ (by simp [INHERITABLE_PROPS])]; exact h4

theorem fontColorStage_extends (name : String) (al : List (String × String))
    (inh : StyleMap) (cur0 : ℚ) : Extends inh (fontColorStage name al inh cur0).1 := by
  unfold fontColorStage
  split
  · split
    · exact extends_setStyle _ _ _
    · exact Extends.refl _
  · exact Extends.refl _

theorem fontSizeStage_extends (name : String) (al : List (String × String))
    (st1 st2 : StyleMap) (h : fontSizeStage name al st1 = .ok st2) : Extends st1 st2 := by
  unfold fontSizeStage at h
  split at h
  · split at h
    · simp only [bind, Except.bind, pure, Except.pure] at h
      split at h
      · exact Except.noConfusion h
      · injection h with h1
        subst h1
        exact extends_setStyle _ _ _
    · simp only [pure, Except.pure] at h
      injection h with h1
      subst h1
      exact Extends.refl _
  · simp only [pure, Except.pure] at h
    injection h with h1
    subst h1
    exact Extends.refl _

theorem tableBgStage_extends (al : List (String × String)) (st2 : StyleMap) :
    Extends st2 (tableBgStage al st2) := by
  unfold tableBgStage
  split
  · dsimp only
    split
    · exact extends_setStyle _ _ _
    · exact extends_setStyle _ _ _
  · exact Extends.refl _

theorem tableTextStage_extends (al : List (String × String)) (st3 : StyleMap) (cur1 : ℚ) :
    Extends st3 (tableTextStage al st3 cur1).1 := by
  unfold tableTextStage
  split
  · exact extends_setStyle _ _ _
  · exact Extends.refl _

theorem tableAlignStage_extends (al : List (String × String)) (st3 : StyleMap) :
    Extends st3 (tableAlignStage al st3) := by
  unfold tableAlignStage
  split
  · exact extends_setStyle _ _ _
  · exact Extends.refl _

theorem tableWidthStage_extends (al : List (String × String)) (st3 : StyleMap) :
    Extends st3 (tableWidthStage al st3) := by
  unfold tableWidthStage
  split
  · split
    · exact extends_setStyle _ _ _
    · exact extends_setStyle _ _ _
  · exact Extends.refl _

theorem tableStage_extends (name : String) (al : List (String × String))
    (st2 : StyleMap) (cur1 : ℚ) : Extends st2 (tableStage name al st2 cur1).1 := by
  unfold tableStage
  split
  · dsimp only
    exact (((tableBgStage_extends al st2).trans
      (tableTextStage_extends al (tableBgStage al st2) cur1)).trans
      (tableAlignStage_extends al _)).trans (tableWidthStage_extends al _)
  · exact Extends.refl _

theorem inlineStage_extends (attrs : List (String × String)) (acc acc2 : StyleMap × ℚ)
    (h : inlineStage attrs acc = .ok acc2) : Extends acc.1 acc2.1 := by
  unfold inlineStage at h
  split at h
  · exact foldlM_applyInline_extends _ _ _ h
  · simp only [pure, Except.pure] at h
    injection h with h1
    subst h1
    exact Extends.refl _

theorem parseNodeStyle_extends (n : Node) (inh st : StyleMap)
    (h : parseNodeStyle n inh = .ok st) : Extends inh st := by
  match n with
  | .text _ => exact Except.noConfusion h
  | .comment _ => exact Except.noConfusion h
  | .elem name attrs children =>
    rw [parseNodeStyle] at h
    simp only [bind, Except.bind, pure, Except.pure] at h
    split at h
    · exact Except.noConfusion h
    next st2 heq2 =>
    split at h
    · exact Except.noConfusion h
    next pr heq4 =>
    injection h with h1
    subst h1
    exact ((fontColorStage_extends name (attrsLower attrs) inh _).trans
      ((fontSizeStage_extends _ _ _ _ heq2).trans
        ((tableStage_extends name (attrsLower attrs) st2 _).trans
          (inlineStage_extends attrs _ pr heq4)))).trans (extends_setStyle _ _ _)

theorem processAnchorTag_ok (contr : Color → Color → ℚ) (node : Node) (inh : StyleMap)
    (r : ARecord) (h : processAnchorTag contr node inh = .ok (some r)) :
    r.typ = RecType.link ∧ (hasCoreKeys inh → hasCoreKeys r.style) := by
  unfold processAnchorTag at h
  simp only [bind, Except.bind, pure, Except.pure] at h
  split at h
  · injection h with h1
    exact Option.noConfusion h1
  · split at h
    · exact Except.noConfusion h
    next st heqP =>
    split at h
    · exact Except.noConfusion h
    next vr heqV =>
    injection h with h1
    injection h1 with h2
    subst h2
    exact ⟨rfl, fun hc => hasCoreKeys_of_extends (parseNodeStyle_extends node inh st heqP) hc⟩

theorem walkPath_spec : ∀ (nodes : List Node) (contr : Color → Color → ℚ) (inh : StyleMap)
    (recs : List ARecord) (flag : Bool),
    walkPath contr nodes inh = .ok (recs, flag) →
    flag = recs.all (fun r => !(r.typ == RecType.text) || r.visible) ∧
    (hasCoreKeys inh → ∀ r ∈ recs, hasCoreKeys r.style)
  | [], contr, inh, recs, flag, h => by
    rw [walkPath] at h
    simp only [pure, Except.pure] at h
    injection h with h1
    injection h1 with h2 h3
    subst h2
    subst h3
    exact ⟨rfl, fun _ r hr => absurd hr (List.not_mem_nil r)⟩
  | n :: rest, contr, inh, recs, flag, h => by
    rw [walkPath] at h
    split at h
    · -- anchor: one record (or none), flag contribution `true`
      simp only [bind, Except.bind, pure, Except.pure] at h
      split at h
      · exact Except.noConfusion h
      next ro heqA =>
      injection h with h1
      match ro, heqA with
      | none, heqA =>
        dsimp only at h1
        injection h1 with h2 h3
        subst h2
        subst h3
        exact ⟨rfl, fun _ r hr => absurd hr (List.not_mem_nil r)⟩
      | some r, heqA =>
        dsimp only at h1
        injection h1 with h2 h3
        subst h2
        subst h3
        obtain ⟨htyp, hstyle⟩ := processAnchorTag_ok contr n inh r heqA
        constructor
        · simp [List.all, htyp]
        · intro hc r' hr'
          rw [List.mem_singleton] at hr'
          subst hr'
          exact hstyle hc
    · -- non-anchor: maybe a text record, then the tail from the filtered style
      simp only [bind, Except.bind, pure, Except.pure] at h
      split at h
      · exact Except.noConfusion h
      next st heqP =>
      have hcst : hasCoreKeys inh → hasCoreKeys (st.filter (fun kv => kv.1 ∈ INHERITABLE_PROPS)) :=
        fun hc => hasCoreKeys_filter st
          (hasCoreKeys_of_extends (parseNodeStyle_extends n inh st heqP) hc)
      split at h
      · -- direct text: emit a record and fold its visibility into the flag
        split at h
        · exact Except.noConfusion h
        next vr heqV =>
        split at h
        · exact Except.noConfusion h
        next tl heqT =>
        injection h with h1
        injection h1 with h2 h3
        subst h2
        subst h3
        obtain ⟨ih1, ih2⟩ := walkPath_spec rest contr _ tl.1 tl.2 heqT
        constructor
        · simp only [List.all_cons]
          rw [← ih1]
          simp
        · intro hc r' hr'
          rcases List.mem_cons.mp hr' with hr' | hr'
          · subst hr'
            exact hasCoreKeys_of_extends (parseNodeStyle_extends n inh st heqP) hc
          · exact ih2 (hcst hc) r' hr'
      · -- no direct text: pass through
        split at h
        · exact Except.noConfusion h
        next tl heqT =>
        injection h with h1
        injection h1 with h2 h3
        subst h2
        subst h3
        obtain ⟨ih1, ih2⟩ := walkPath_spec rest contr _ tl.1 tl.2 heqT
        exact ⟨ih1, fun hc r' hr' => ih2 (hcst hc) r' hr'⟩

theorem hasCoreKeys_default : hasCoreKeys DEFAULT_STYLE := by
  refine ⟨?_, ?_, ?_, ?_⟩ <;> rfl

theorem pathStep_fold_spec : ∀ (paths : List (List Node)) (contr : Color → Color → ℚ)
    (acc res : List ARecord × Bool),
    List.foldlM (pathStep contr) acc paths = .ok res →
    ∃ new : List ARecord, res.1 = acc.1 ++ new ∧
      res.2 = (acc.2 && new.all (fun r => !(r.typ == RecType.text) || r.visible)) ∧
      ∀ r ∈ new, hasCoreKeys r.style
  | [], contr, acc, res, h => by
    simp only [List.foldlM_nil, pure, Except.pure] at h
    injection h with h1
    subst h1
    exact ⟨[], by simp, by simp, fun r hr => absurd hr (List.not_mem_nil r)⟩
  | p :: ps, contr, acc, res, h => by
    rw [List.foldlM_cons] at h
    simp only [bind, Except.bind] at h
    split at h
    · exact Except.noConfusion h
    next acc2 heqS =>
    obtain ⟨new, h1, h2, h3⟩ := pathStep_fold_spec ps contr acc2 res h
    unfold pathStep at heqS
    simp only [bind, Except.bind, pure, Except.pure] at heqS
    split at heqS
    · exact Except.noConfusion heqS
    next pr heqW =>
    injection heqS with hS
    obtain ⟨hflag, hkeys⟩ := walkPath_spec p contr DEFAULT_STYLE pr.1 pr.2 heqW
    refine ⟨pr.1 ++ new, ?_, ?_, ?_⟩
    · rw [h1, ← hS]
      simp [List.append_assoc]
    · rw [h2, ← hS]
      dsimp only
      rw [hflag]
      simp [List.all_append, Bool.and_assoc]
    · intro r hr
      rcases List.mem_append.mp hr with hr | hr
      · exact hkeys hasCoreKeys_default r hr
      · exact h3 r hr

theorem processComment_typ (c : CommentInput) (r : ARecord) (hr : r ∈ processComment c) :
    r.typ = RecType.htmlComment ∨ r.typ = RecType.conditionalComment := by
  unfold processComment at hr
  dsimp only at hr
  split at hr
  · split at hr
    · obtain ⟨r0, _, hmap⟩ := List.mem_map.mp hr
      subst hmap
      exact Or.inr rfl
    · exact absurd hr (List.not_mem_nil r)
  · rw [List.mem_singleton] at hr
    subst hr
    exact Or.inl rfl

theorem processComments_typ (cs : List CommentInput) (r : ARecord)
    (hr : r ∈ processComments cs) :
    r.typ = RecType.htmlComment ∨ r.typ = RecType.conditionalComment := by
  unfold processComments at hr
  obtain ⟨c, _, hrc⟩ := List.mem_flatMap.mp hr
  exact processComment_typ c r hrc

theorem textPred_iff (r : ARecord) :
    (!(r.typ == RecType.text) || r.visible) = true ↔
      (r.typ = RecType.text → r.visible = true) := by
  by_cases h : r.typ = RecType.text <;> simp [h, beq_iff_eq]

theorem analyzePaths_spec (contr : Color → Color → ℚ) (paths : List (List Node))
    (comments : List CommentInput) (recs : List ARecord) (flag : Bool)
    (h : analyzePaths contr paths comments = .ok (recs, flag)) :
    ∃ new : List ARecord, recs = new ++ processComments comments ∧
      flag = new.all (fun r => !(r.typ == RecType.text) || r.visible) ∧
      ∀ r ∈ new, hasCoreKeys r.style := by
  unfold analyzePaths at h
  simp only [bind, Except.bind, pure, Except.pure] at h
  split at h
  · exact Except.noConfusion h
  next acc2 heqF =>
  injection h with h1
  injection h1 with h2 h3
  obtain ⟨new, hn1, hn2, hn3⟩ := pathStep_fold_spec paths contr ([], true) acc2 heqF
  refine ⟨new, ?_, ?_, hn3⟩
  · rw [← h2, hn1]
    simp
  · rw [← h3, hn2]
    simp

/-- **C1** (counterexample): a document whose only path is an anchor styled
`display:none` yields a link record marked not-visible, yet the document
verdict is `true` — the anchor branch `break`s without folding the link's
visibility into `file_visible`, refuting "the verdict is true iff every
Text *and Link* record is visible". -/
theorem claim_C1_counterexample :
    analyzePaths (fun _ _ => (21 : ℚ)) c1doc [] = .ok ([c1record], true) ∧
    c1record.typ = RecType.link ∧ c1record.visible = false := by
  refine ⟨?_, rfl, rfl⟩
  with_unfolding_all rfl

/-- **C1** (amended): the document verdict returned by `analyze_paths` is
`true` iff every *Text* record is marked visible; Link records (the anchor
branch returns without touching `file_visible`) and Comment records never
affect the verdict. -/
theorem claim_C1_verdict_amended (contr : Color → Color → ℚ) (paths : List (List Node))
    (comments : List CommentInput) (recs : List ARecord) (flag : Bool)
    (h : analyzePaths contr paths comments = .ok (recs, flag)) :
    flag = true ↔ ∀ r ∈ recs, r.typ = RecType.text → r.visible = true := by
  obtain ⟨new, hrecs, hflag, _⟩ := analyzePaths_spec contr paths comments recs flag h
  subst hrecs
  rw [hflag]
  constructor
  · intro hall r hr htyp
    rcases List.mem_append.mp hr with hr | hr
    · exact (textPred_iff r).mp (List.all_eq_true.mp hall r hr) htyp
    · rcases processComments_typ comments r hr with hc | hc <;>
        (rw [htyp] at hc; exact RecType.noConfusion hc)
  · intro hvis
    rw [List.all_eq_true]
    intro r hr
    exact (textPred_iff r).mpr (hvis r (List.mem_append.mpr (Or.inl hr)))

/-- **C1** (witness): the amended verdict law applied to the concrete
one-anchor document. -/
theorem claim_C1_witness :
    (true : Bool) = true ↔ ∀ r ∈ [c1record], r.typ = RecType.text → r.visible = true :=
  claim_C1_verdict_amended (fun _ _ => 21) c1doc [] [c1record] true
    (by with_unfolding_all rfl)

/-- **C9**: every Text/Link record produced by `analyze_paths` carries a
resolved style defining the four core keys `color`, `background-color`,
`font-size` and `opacity`: each path starts from `DEFAULT_STYLE` (which has
all four), all four keys are inheritable, and the cascade only overwrites
(never deletes) entries — so the classifier's unguarded lookups never hit a
missing key. -/
theorem claim_C9_core_keys :
    hasCoreKeys DEFAULT_STYLE ∧
    ("color" ∈ INHERITABLE_PROPS ∧ "background-color" ∈ INHERITABLE_PROPS ∧
     "font-size" ∈ INHERITABLE_PROPS ∧ "opacity" ∈ INHERITABLE_PROPS) ∧
    ∀ (contr : Color → Color → ℚ) (paths : List (List Node)) (comments : List CommentInput)
      (recs : List ARecord) (flag : Bool),
      analyzePaths contr paths comments = .ok (recs, flag) →
      ∀ r ∈ recs, r.typ = RecType.text ∨ r.typ = RecType.link → hasCoreKeys r.style := by
  refine ⟨hasCoreKeys_default, ⟨by simp [INHERITABLE_PROPS], by simp [INHERITABLE_PROPS],
    by simp [INHERITABLE_PROPS], by simp [INHERITABLE_PROPS]⟩, ?_⟩
  intro contr paths comments recs flag h r hr htyp
  obtain ⟨new, hrecs, _, hkeys⟩ := analyzePaths_spec contr paths comments recs flag h
  subst hrecs
  rcases List.mem_append.mp hr with hr | hr
  · exact hkeys r hr
  · rcases processComments_typ comments r hr with hc | hc <;>
      rcases htyp with ht | ht <;> (rw [ht] at hc; exact RecType.noConfusion hc)

/-- **C9** (witness): the core-key invariant applied to the concrete
one-paragraph document. -/
theorem claim_C9_witness : hasCoreKeys c9record.style :=
  claim_C9_core_keys.2.2 (fun _ _ => 21) c9doc [] [c9record] true
    (by with_unfolding_all rfl) c9record (List.mem_singleton.mpr rfl) (Or.inl rfl)

end InvisDet
